import Mathlib

/-!
# Scheduler evaluation context and node-eligibility tracker

A shallow embedding of `scheduler/context.go`.

Conventions of the embedding:

* a Go `map[K]V` is a function `K → Option V` (`none` = key absent); a write
  is a pointwise update (`mapSet`);
* `uint64` computed node classes are natural numbers: the code only compares
  a class with `0` and uses it as a map key, so no arithmetic can overflow;
* a slice of which only `len` and the elements are read is a `List`; where
  the code distinguishes a nil slice from an empty one (`ProposedAllocs`)
  the slice is a `Slice`;
* types and functions of package `structs` that the file uses but does not
  declare are parameters: the constraint type, the allocation type,
  `structs.EscapedConstraints`, `structs.FilterTerminalAllocs`,
  `structs.RemoveAllocs`;
* a method with a pointer receiver returns the receiver after the call next to
  its result; an object reached through a pointer or a map reference that a
  method handed out is the object held in the owner's field, and a caller's
  write through that reference is an update of the field (`onEligibility`,
  `storeRegexp`, `storeConstraint`).
-/

namespace Scheduler

/-! ## Data model -/

/-- Feasibility status of a computed node class (`type ComputedClassFeasibility byte`
with its four `iota` constants, in source order). -/
inductive ComputedClassFeasibility where
  | EvalComputedClassUnknown
  | EvalComputedClassIneligible
  | EvalComputedClassEligible
  | EvalComputedClassEscaped
  deriving DecidableEq

open ComputedClassFeasibility

/-- Go map write `m[k] = v`. -/
def mapSet {K V : Type} [DecidableEq K] (m : K → Option V) (k : K) (v : V) : K → Option V :=
  fun k' => if k' = k then some v else m k'

/-- Go `make(map[K]V)`: the map with no key. -/
def mapEmpty {K V : Type} : K → Option V := fun _ => none

/-- The part of `structs.Task` read by `SetJob`. -/
structure Task (Constraint : Type) where
  Constraints : List Constraint

/-- The part of `structs.TaskGroup` read by `SetJob`. -/
structure TaskGroup (Constraint : Type) where
  Name : String
  Constraints : List Constraint
  Tasks : List (Task Constraint)

/-- The part of `structs.Job` read by `SetJob`. -/
structure Job (Constraint : Type) where
  Constraints : List Constraint
  TaskGroups : List (TaskGroup Constraint)

/-- The tracker `EvalEligibility`: eligibility of nodes by computed node class. -/
structure EvalEligibility (Constraint : Type) where
  /-- eligibility at the job level per computed node class -/
  job : Nat → Option ComputedClassFeasibility
  /-- escaped constraints at the job level -/
  jobEscapedConstraints : List Constraint
  /-- eligibility at the task group level per computed node class -/
  taskGroups : String → Option (Nat → Option ComputedClassFeasibility)
  /-- task group name to the constraints that have escaped -/
  tgEscapedConstraints : String → Option (List Constraint)

section Tracker

variable {Constraint : Type}

/-- `NewEvalEligibility`: three empty maps, `jobEscapedConstraints` left nil. -/
def NewEvalEligibility : EvalEligibility Constraint where
  job := mapEmpty
  jobEscapedConstraints := []
  taskGroups := mapEmpty
  tgEscapedConstraints := mapEmpty

/-- The inner loop of `SetJob`: `constraints := tg.Constraints`, then every
task's constraints appended in task order. -/
def tgConstraints (tg : TaskGroup Constraint) : List Constraint :=
  tg.Tasks.foldl (fun constraints task => constraints ++ task.Constraints) tg.Constraints

/-- One iteration of the task-group loop of `SetJob`. -/
def SetJob.step (EscapedConstraints : List Constraint → List Constraint)
    (e : EvalEligibility Constraint) (tg : TaskGroup Constraint) : EvalEligibility Constraint :=
  { e with tgEscapedConstraints :=
      mapSet e.tgEscapedConstraints tg.Name (EscapedConstraints (tgConstraints tg)) }

/-- `EvalEligibility.SetJob`; `structs.EscapedConstraints` is a parameter. -/
def SetJob (EscapedConstraints : List Constraint → List Constraint)
    (e : EvalEligibility Constraint) (job : Job Constraint) : EvalEligibility Constraint :=
  job.TaskGroups.foldl (SetJob.step EscapedConstraints)
    { e with jobEscapedConstraints := EscapedConstraints job.Constraints }

/-- `EvalEligibility.JobStatus`. -/
def JobStatus (e : EvalEligibility Constraint) (cls : Nat) : ComputedClassFeasibility :=
  if e.jobEscapedConstraints.length ≠ 0 ∨ cls = 0 then
    EvalComputedClassEscaped
  else
    match e.job cls with
    | some status => status
    | none => EvalComputedClassUnknown

/-- `EvalEligibility.SetJobEligibility`. -/
def SetJobEligibility (e : EvalEligibility Constraint) (eligible : Bool) (cls : Nat) :
    EvalEligibility Constraint :=
  if eligible then
    { e with job := mapSet e.job cls EvalComputedClassEligible }
  else
    { e with job := mapSet e.job cls EvalComputedClassIneligible }

/-- `EvalEligibility.TaskGroupStatus`. -/
def TaskGroupStatus (e : EvalEligibility Constraint) (tg : String) (cls : Nat) :
    ComputedClassFeasibility :=
  if cls = 0 then
    EvalComputedClassEscaped
  else if (match e.tgEscapedConstraints tg with
      | some escaped => decide (escaped.length ≠ 0)
      | none => false) then
    EvalComputedClassEscaped
  else
    match e.taskGroups tg with
    | some classes =>
      match classes cls with
      | some status => status
      | none => EvalComputedClassUnknown
    | none => EvalComputedClassUnknown

/-- `EvalEligibility.SetTaskGroupEligibility`. -/
def SetTaskGroupEligibility (e : EvalEligibility Constraint) (eligible : Bool) (tg : String)
    (cls : Nat) : EvalEligibility Constraint :=
  let eligibility :=
    if eligible then EvalComputedClassEligible else EvalComputedClassIneligible
  match e.taskGroups tg with
  | some classes =>
    { e with taskGroups := mapSet e.taskGroups tg (mapSet classes cls eligibility) }
  | none =>
    { e with taskGroups := mapSet e.taskGroups tg (mapSet mapEmpty cls eligibility) }

/-- A mutating call on the tracker. -/
inductive Op (Constraint : Type) where
  | setJob (job : Job Constraint)
  | setJobEligibility (eligible : Bool) (cls : Nat)
  | setTaskGroupEligibility (eligible : Bool) (tg : String) (cls : Nat)

/-- Perform one call. -/
def Op.apply (EscapedConstraints : List Constraint → List Constraint)
    (e : EvalEligibility Constraint) : Op Constraint → EvalEligibility Constraint
  | .setJob job => SetJob EscapedConstraints e job
  | .setJobEligibility eligible cls => SetJobEligibility e eligible cls
  | .setTaskGroupEligibility eligible tg cls => SetTaskGroupEligibility e eligible tg cls

/-- Perform a sequence of calls, first call first. -/
def runOps (EscapedConstraints : List Constraint → List Constraint)
    (ops : List (Op Constraint)) (e : EvalEligibility Constraint) : EvalEligibility Constraint :=
  ops.foldl (Op.apply EscapedConstraints) e

/-- The verdict of the last `SetJobEligibility` call for `cls` in a sequence of
calls, `none` when there is no such call. -/
def lastJobEligibility (ops : List (Op Constraint)) (cls : Nat) : Option Bool :=
  ops.foldl (fun acc op =>
    match op with
    | .setJobEligibility eligible c => if c = cls then some eligible else acc
    | _ => acc) none

/-- The verdict of the last `SetTaskGroupEligibility` call for the pair
(`tg`, `cls`) in a sequence of calls, `none` when there is no such call. -/
def lastTaskGroupEligibility (ops : List (Op Constraint)) (tg : String) (cls : Nat) :
    Option Bool :=
  ops.foldl (fun acc op =>
    match op with
    | .setTaskGroupEligibility eligible tg' c =>
      if tg' = tg ∧ c = cls then some eligible else acc
    | _ => acc) none

/-- The status recorded for the pair (`tg`, `cls`), as the last two lookups of
`TaskGroupStatus` read it: `none` when the task group has no class map or the
map has no entry for the class. -/
def tgRecorded (e : EvalEligibility Constraint) (tg : String) (cls : Nat) :
    Option ComputedClassFeasibility :=
  match e.taskGroups tg with
  | some classes => classes cls
  | none => none

/-- Every status held in the job-level class map and in the per-task-group
class maps is Eligible or Ineligible. -/
def OnlyVerdicts (e : EvalEligibility Constraint) : Prop :=
  (∀ c s, e.job c = some s →
    s = EvalComputedClassEligible ∨ s = EvalComputedClassIneligible) ∧
  (∀ tg c s, tgRecorded e tg c = some s →
    s = EvalComputedClassEligible ∨ s = EvalComputedClassIneligible)

end Tracker

/-! ## Evaluation context -/

/-- A Go slice value, keeping the difference between the nil slice and an
allocated slice (which may be empty). -/
inductive Slice (α : Type) where
  | nil : Slice α
  | mk (elems : List α) : Slice α
  deriving DecidableEq

namespace Slice

variable {α : Type}

/-- The elements of a slice; the nil slice has none. -/
def toList : Slice α → List α
  | nil => []
  | mk elems => elems

/-- Go `len(s)`. -/
def len (s : Slice α) : Nat := s.toList.length

/-- Go `s == nil`. -/
def isNil : Slice α → Bool
  | nil => true
  | mk _ => false

/-- Go `append(s, xs...)`: appending nothing to the nil slice gives the nil
slice, every other result is allocated. -/
def append (s xs : Slice α) : Slice α :=
  match s, xs.toList with
  | nil, [] => nil
  | nil, x :: rest => mk (x :: rest)
  | mk elems, more => mk (elems ++ more)

end Slice

/-- The `State` interface as `ProposedAllocs` uses it: the one method
`AllocsByNode`, a call on an external store. The store is the explicit `σ`,
so that the calls made on it can be counted. -/
structure State (σ Allocation Err : Type) where
  AllocsByNode : String → σ → (Slice Allocation × Option Err) × σ

/-- The part of `structs.Plan` read by `ProposedAllocs`: two maps from node ID
to a slice of allocations. A missing key reads as the nil slice. -/
structure Plan (Allocation : Type) where
  NodeUpdate : String → Slice Allocation
  NodeAllocation : String → Slice Allocation

/-- `EvalCache`: the two lazily made caches; `none` is the nil map. -/
structure EvalCache (Regexp VersionConstraints : Type) where
  reCache : Option (String → Option Regexp)
  constraintCache : Option (String → Option VersionConstraints)

/-- `EvalContext`, with `EvalCache` embedded. -/
structure EvalContext (σ Allocation Err Constraint Regexp VersionConstraints AllocMetric
    Logger : Type) extends EvalCache Regexp VersionConstraints where
  state : State σ Allocation Err
  plan : Plan Allocation
  logger : Logger
  metrics : AllocMetric
  eligibility : Option (EvalEligibility Constraint)

section Context

variable {σ Allocation Err Constraint Regexp VersionConstraints AllocMetric Logger : Type}

/-- `EvalCache.RegexpCache`: the map and the cache after the call. -/
def EvalCache.RegexpCache (e : EvalCache Regexp VersionConstraints) :
    (String → Option Regexp) × EvalCache Regexp VersionConstraints :=
  match e.reCache with
  | none => (mapEmpty, { e with reCache := some mapEmpty })
  | some m => (m, e)

/-- `EvalCache.ConstraintCache`: the map and the cache after the call. -/
def EvalCache.ConstraintCache (e : EvalCache Regexp VersionConstraints) :
    (String → Option VersionConstraints) × EvalCache Regexp VersionConstraints :=
  match e.constraintCache with
  | none => (mapEmpty, { e with constraintCache := some mapEmpty })
  | some m => (m, e)

/-- `NewEvalContext`; `new(structs.AllocMetric)` is the default value of `AllocMetric`. -/
def NewEvalContext [Inhabited AllocMetric] (s : State σ Allocation Err) (p : Plan Allocation)
    (log : Logger) :
    EvalContext σ Allocation Err Constraint Regexp VersionConstraints AllocMetric Logger where
  reCache := none
  constraintCache := none
  state := s
  plan := p
  logger := log
  metrics := default
  eligibility := none

/-- `EvalContext.Reset`. -/
def EvalContext.Reset [Inhabited AllocMetric]
    (e : EvalContext σ Allocation Err Constraint Regexp VersionConstraints AllocMetric Logger) :
    EvalContext σ Allocation Err Constraint Regexp VersionConstraints AllocMetric Logger :=
  { e with metrics := default }

/-- `EvalContext.Eligibility`: the tracker and the context after the call. -/
def EvalContext.Eligibility
    (e : EvalContext σ Allocation Err Constraint Regexp VersionConstraints AllocMetric Logger) :
    EvalEligibility Constraint ×
      EvalContext σ Allocation Err Constraint Regexp VersionConstraints AllocMetric Logger :=
  match e.eligibility with
  | none => (NewEvalEligibility, { e with eligibility := some NewEvalEligibility })
  | some t => (t, e)

/-- A caller's `cache[key] = re` on the map that `RegexpCache()` returned. A Go
map is a reference: the write lands in the map the field `reCache` holds. While
the field is nil no map was handed out and there is nothing to write to. -/
def EvalCache.storeRegexp (e : EvalCache Regexp VersionConstraints) (key : String)
    (re : Regexp) : EvalCache Regexp VersionConstraints :=
  match e.reCache with
  | some m => { e with reCache := some (mapSet m key re) }
  | none => e

/-- A caller's `cache[key] = constraints` on the map that `ConstraintCache()`
returned; see `storeRegexp`. -/
def EvalCache.storeConstraint (e : EvalCache Regexp VersionConstraints) (key : String)
    (constraints : VersionConstraints) : EvalCache Regexp VersionConstraints :=
  match e.constraintCache with
  | some m => { e with constraintCache := some (mapSet m key constraints) }
  | none => e

/-- Calls made by a caller on the tracker pointer that `Eligibility()`
returned: the pointer and the field `eligibility` name one tracker, so the
calls change the tracker the field holds. While the field is nil no pointer
was handed out and there is nothing to call. -/
def EvalContext.onEligibility
    (e : EvalContext σ Allocation Err Constraint Regexp VersionConstraints AllocMetric Logger)
    (calls : EvalEligibility Constraint → EvalEligibility Constraint) :
    EvalContext σ Allocation Err Constraint Regexp VersionConstraints AllocMetric Logger :=
  match e.eligibility with
  | some t => { e with eligibility := some (calls t) }
  | none => e

/-- `EvalContext.ProposedAllocs`. The result is the Go pair (slice, error) and
the store after the call. `structs.FilterTerminalAllocs` and
`structs.RemoveAllocs` are parameters. -/
def EvalContext.ProposedAllocs
    (FilterTerminalAllocs : Slice Allocation → Slice Allocation)
    (RemoveAllocs : Slice Allocation → Slice Allocation → Slice Allocation)
    (e : EvalContext σ Allocation Err Constraint Regexp VersionConstraints AllocMetric Logger)
    (nodeID : String) (st : σ) : (Slice Allocation × Option Err) × σ :=
  match e.state.AllocsByNode nodeID st with
  | ((_, some err), st') => ((Slice.nil, some err), st')
  | ((existingAlloc, none), st') =>
    let existingAlloc := FilterTerminalAllocs existingAlloc
    let update := e.plan.NodeUpdate nodeID
    let proposed := if update.len > 0 then RemoveAllocs existingAlloc update else existingAlloc
    let proposed := proposed.append (e.plan.NodeAllocation nodeID)
    let proposed := if proposed.isNil then Slice.mk [] else proposed
    ((proposed, none), st')

/-- Modelled from the spec: `structs.FilterTerminalAllocs` is not among the
sources. The spec: "filter out allocations already in a terminal status".
`TerminalStatus` says which allocations are terminal. -/
def FilterTerminalAllocs (TerminalStatus : Allocation → Bool) :
    Slice Allocation → Slice Allocation
  | Slice.nil => Slice.nil
  | Slice.mk allocs => Slice.mk (allocs.filter (fun a => !TerminalStatus a))

/-- Modelled from the spec: `structs.RemoveAllocs` is not among the sources.
The spec: "remove exactly those by identity", the identity of an allocation
being its `ID`. -/
def RemoveAllocs (ID : Allocation → String) (alloc remove : Slice Allocation) :
    Slice Allocation :=
  match alloc with
  | Slice.nil => Slice.nil
  | Slice.mk allocs =>
    Slice.mk (allocs.filter (fun a => decide (ID a ∉ remove.toList.map ID)))

/-- What `ProposedAllocs` keeps of the existing allocations before the
placements are appended: the value of `proposed` after the eviction branch. -/
def keptAllocs
    (FilterTerminalAllocs : Slice Allocation → Slice Allocation)
    (RemoveAllocs : Slice Allocation → Slice Allocation → Slice Allocation)
    (p : Plan Allocation) (nodeID : String) (existingAlloc : Slice Allocation) :
    Slice Allocation :=
  if (p.NodeUpdate nodeID).len > 0 then
    RemoveAllocs (FilterTerminalAllocs existingAlloc) (p.NodeUpdate nodeID)
  else
    FilterTerminalAllocs existingAlloc

end Context

/-! ## A small concrete context

Allocations are pairs (ID, terminal). Node `n1` holds `A` and `B` (running) and
`C` (terminal); the plan evicts `A` from `n1` and places `D` there. Listing node
`down` fails. The store counts the `AllocsByNode` calls made on it. -/

/-- The example store. -/
def exampleState : State Nat (String × Bool) String where
  AllocsByNode := fun nodeID calls =>
    (if nodeID = "n1" then (Slice.mk [("A", false), ("B", false), ("C", true)], none)
     else if nodeID = "down" then (Slice.nil, some "state store unavailable")
     else (Slice.nil, none),
     calls + 1)

/-- The example plan. -/
def examplePlan : Plan (String × Bool) where
  NodeUpdate := fun nodeID => if nodeID = "n1" then Slice.mk [("A", true)] else Slice.nil
  NodeAllocation := fun nodeID => if nodeID = "n1" then Slice.mk [("D", false)] else Slice.nil

/-- A plan whose only eviction names an allocation `Z` that no node holds, and
that places nothing. -/
def exampleStalePlan : Plan (String × Bool) where
  NodeUpdate := fun _ => Slice.mk [("Z", true)]
  NodeAllocation := fun _ => Slice.nil

/-- The example context. -/
def exampleContext : EvalContext Nat (String × Bool) String Nat Unit Unit Unit Unit :=
  NewEvalContext exampleState examplePlan ()

/-! ## Field lemmas for the tracker operations -/

section TrackerLemmas

variable {Constraint : Type}

theorem foldl_step_jobEscapedConstraints (esc : List Constraint → List Constraint)
    (tgs : List (TaskGroup Constraint)) (e : EvalEligibility Constraint) :
    (tgs.foldl (SetJob.step esc) e).jobEscapedConstraints = e.jobEscapedConstraints := by
  induction tgs generalizing e with
  | nil => rfl
  | cons tg rest ih => simp only [List.foldl_cons, ih]; rfl

theorem foldl_step_job (esc : List Constraint → List Constraint)
    (tgs : List (TaskGroup Constraint)) (e : EvalEligibility Constraint) :
    (tgs.foldl (SetJob.step esc) e).job = e.job := by
  induction tgs generalizing e with
  | nil => rfl
  | cons tg rest ih => simp only [List.foldl_cons, ih]; rfl

theorem foldl_step_taskGroups (esc : List Constraint → List Constraint)
    (tgs : List (TaskGroup Constraint)) (e : EvalEligibility Constraint) :
    (tgs.foldl (SetJob.step esc) e).taskGroups = e.taskGroups := by
  induction tgs generalizing e with
  | nil => rfl
  | cons tg rest ih => simp only [List.foldl_cons, ih]; rfl

theorem SetJob_jobEscapedConstraints (esc : List Constraint → List Constraint)
    (e : EvalEligibility Constraint) (job : Job Constraint) :
    (SetJob esc e job).jobEscapedConstraints = esc job.Constraints := by
  unfold SetJob; rw [foldl_step_jobEscapedConstraints]

theorem SetJob_job (esc : List Constraint → List Constraint)
    (e : EvalEligibility Constraint) (job : Job Constraint) :
    (SetJob esc e job).job = e.job := by
  unfold SetJob; rw [foldl_step_job]

theorem SetJob_taskGroups (esc : List Constraint → List Constraint)
    (e : EvalEligibility Constraint) (job : Job Constraint) :
    (SetJob esc e job).taskGroups = e.taskGroups := by
  unfold SetJob; rw [foldl_step_taskGroups]

theorem SetJobEligibility_jobEscapedConstraints (e : EvalEligibility Constraint)
    (b : Bool) (c : Nat) :
    (SetJobEligibility e b c).jobEscapedConstraints = e.jobEscapedConstraints := by
  cases b <;> rfl

theorem SetJobEligibility_job (e : EvalEligibility Constraint) (b : Bool) (c : Nat) :
    (SetJobEligibility e b c).job =
      mapSet e.job c (if b then EvalComputedClassEligible else EvalComputedClassIneligible) := by
  cases b <;> rfl

theorem SetJobEligibility_taskGroups (e : EvalEligibility Constraint) (b : Bool) (c : Nat) :
    (SetJobEligibility e b c).taskGroups = e.taskGroups := by
  cases b <;> rfl

theorem SetJobEligibility_tgEscapedConstraints (e : EvalEligibility Constraint)
    (b : Bool) (c : Nat) :
    (SetJobEligibility e b c).tgEscapedConstraints = e.tgEscapedConstraints := by
  cases b <;> rfl

theorem SetTaskGroupEligibility_jobEscapedConstraints (e : EvalEligibility Constraint)
    (b : Bool) (tg : String) (c : Nat) :
    (SetTaskGroupEligibility e b tg c).jobEscapedConstraints = e.jobEscapedConstraints := by
  unfold SetTaskGroupEligibility; cases e.taskGroups tg <;> rfl

theorem SetTaskGroupEligibility_job (e : EvalEligibility Constraint)
    (b : Bool) (tg : String) (c : Nat) :
    (SetTaskGroupEligibility e b tg c).job = e.job := by
  unfold SetTaskGroupEligibility; cases e.taskGroups tg <;> rfl

theorem SetTaskGroupEligibility_tgEscapedConstraints (e : EvalEligibility Constraint)
    (b : Bool) (tg : String) (c : Nat) :
    (SetTaskGroupEligibility e b tg c).tgEscapedConstraints = e.tgEscapedConstraints := by
  unfold SetTaskGroupEligibility; cases e.taskGroups tg <;> rfl

/-- The map written by `SetTaskGroupEligibility`, both branches at once. -/
theorem SetTaskGroupEligibility_taskGroups (e : EvalEligibility Constraint)
    (b : Bool) (tg : String) (c : Nat) :
    (SetTaskGroupEligibility e b tg c).taskGroups =
      mapSet e.taskGroups tg
        (mapSet ((e.taskGroups tg).getD mapEmpty) c
          (if b then EvalComputedClassEligible else EvalComputedClassIneligible)) := by
  unfold SetTaskGroupEligibility; cases h : e.taskGroups tg <;> rfl

theorem JobStatus_zero (e : EvalEligibility Constraint) :
    JobStatus e 0 = EvalComputedClassEscaped := by
  simp [JobStatus]

theorem JobStatus_of_escaped (e : EvalEligibility Constraint) (c : Nat)
    (h : e.jobEscapedConstraints ≠ []) : JobStatus e c = EvalComputedClassEscaped := by
  have : e.jobEscapedConstraints.length ≠ 0 := by
    simpa [List.length_eq_zero] using h
  simp [JobStatus, this]

theorem JobStatus_of_not_escaped (e : EvalEligibility Constraint) (c : Nat)
    (h : e.jobEscapedConstraints = []) (hc : c ≠ 0) :
    JobStatus e c = (e.job c).getD EvalComputedClassUnknown := by
  simp only [JobStatus, h, List.length_nil, ne_eq, not_true_eq_false, hc, or_self, if_false]
  cases e.job c <;> rfl

theorem foldl_SetJobEligibility_jobEscapedConstraints (calls : List (Bool × Nat))
    (e : EvalEligibility Constraint) :
    (calls.foldl (fun t p => SetJobEligibility t p.1 p.2) e).jobEscapedConstraints
      = e.jobEscapedConstraints := by
  induction calls generalizing e with
  | nil => rfl
  | cons p rest ih => simp only [List.foldl_cons, ih, SetJobEligibility_jobEscapedConstraints]

theorem JobStatus_after_SetJobEligibility (e : EvalEligibility Constraint) (b : Bool) (c : Nat)
    (h : e.jobEscapedConstraints = []) (hc : c ≠ 0) :
    JobStatus (SetJobEligibility e b c) c =
      if b then EvalComputedClassEligible else EvalComputedClassIneligible := by
  rw [JobStatus_of_not_escaped _ _ (by rw [SetJobEligibility_jobEscapedConstraints]; exact h) hc,
    SetJobEligibility_job]
  simp [mapSet]

theorem runOps_append (esc : List Constraint → List Constraint)
    (ops : List (Op Constraint)) (op : Op Constraint) (e : EvalEligibility Constraint) :
    runOps esc (ops ++ [op]) e = Op.apply esc (runOps esc ops e) op := by
  simp [runOps, List.foldl_append]

/-- The job-level class map after a sequence of calls: the last verdict written
for the class, else the entry the map had. -/
theorem runOps_job (esc : List Constraint → List Constraint)
    (ops : List (Op Constraint)) (e : EvalEligibility Constraint) (c : Nat) :
    (runOps esc ops e).job c =
      match lastJobEligibility ops c with
      | some b => some (if b then EvalComputedClassEligible else EvalComputedClassIneligible)
      | none => e.job c := by
  induction ops using List.reverseRecOn with
  | nil => rfl
  | append_singleton ops op ih =>
    rw [runOps_append]
    have hl : lastJobEligibility (ops ++ [op]) c =
        match op with
        | .setJobEligibility eligible c' => if c' = c then some eligible else lastJobEligibility ops c
        | _ => lastJobEligibility ops c := by
      simp [lastJobEligibility, List.foldl_append]
    rw [hl]
    cases op with
    | setJob job => simp only [Op.apply, SetJob_job]; exact ih
    | setJobEligibility b c' =>
      simp only [Op.apply, SetJobEligibility_job, mapSet]
      by_cases hcc : c = c'
      · subst hcc; simp
      · have : ¬ c' = c := fun h => hcc h.symm
        simp only [hcc, this, if_false]; exact ih
    | setTaskGroupEligibility b tg c' =>
      simp only [Op.apply, SetTaskGroupEligibility_job]; exact ih

theorem TaskGroupStatus_of_escaped (e : EvalEligibility Constraint) (tg : String) (c : Nat)
    (h : c = 0 ∨ ∃ l, e.tgEscapedConstraints tg = some l ∧ l ≠ []) :
    TaskGroupStatus e tg c = EvalComputedClassEscaped := by
  unfold TaskGroupStatus
  rcases h with h | ⟨l, hl, hne⟩
  · simp [h]
  · have : l.length ≠ 0 := by simpa [List.length_eq_zero] using hne
    simp [hl, this]

theorem TaskGroupStatus_of_not_escaped (e : EvalEligibility Constraint) (tg : String) (c : Nat)
    (hc : c ≠ 0) (h : ∀ l, e.tgEscapedConstraints tg = some l → l = []) :
    TaskGroupStatus e tg c = (tgRecorded e tg c).getD EvalComputedClassUnknown := by
  unfold TaskGroupStatus tgRecorded
  have h1 : (match e.tgEscapedConstraints tg with
      | some escaped => decide (escaped.length ≠ 0)
      | none => false) = false := by
    cases hl : e.tgEscapedConstraints tg with
    | none => rfl
    | some l => simp [h l hl]
  rw [if_neg hc, h1]
  cases e.taskGroups tg with
  | none => simp
  | some classes =>
    simp only [Bool.false_eq_true, if_false]
    cases classes c <;> rfl

theorem tgRecorded_SetTaskGroupEligibility (e : EvalEligibility Constraint) (b : Bool)
    (tg : String) (c : Nat) (tg' : String) (c' : Nat) :
    tgRecorded (SetTaskGroupEligibility e b tg c) tg' c' =
      if tg' = tg ∧ c' = c then
        some (if b then EvalComputedClassEligible else EvalComputedClassIneligible)
      else tgRecorded e tg' c' := by
  unfold tgRecorded
  rw [SetTaskGroupEligibility_taskGroups]
  by_cases htg : tg' = tg
  · subst htg
    by_cases hcc : c' = c
    · simp [mapSet, hcc]
    · cases h : e.taskGroups tg' <;> simp [mapSet, hcc, h, mapEmpty]
  · simp [mapSet, htg]

theorem tgRecorded_SetJob (esc : List Constraint → List Constraint)
    (e : EvalEligibility Constraint) (job : Job Constraint) (tg : String) (c : Nat) :
    tgRecorded (SetJob esc e job) tg c = tgRecorded e tg c := by
  unfold tgRecorded; rw [SetJob_taskGroups]

theorem tgRecorded_SetJobEligibility (e : EvalEligibility Constraint) (b : Bool) (c' : Nat)
    (tg : String) (c : Nat) :
    tgRecorded (SetJobEligibility e b c') tg c = tgRecorded e tg c := by
  unfold tgRecorded; rw [SetJobEligibility_taskGroups]

/-- A sequence of calls with no `SetTaskGroupEligibility` for the pair leaves the
status recorded for the pair as it was. -/
theorem runOps_tgRecorded_of_not_written (esc : List Constraint → List Constraint)
    (ops : List (Op Constraint)) (e : EvalEligibility Constraint) (tg : String) (c : Nat)
    (h : ∀ b, Op.setTaskGroupEligibility b tg c ∉ ops) :
    tgRecorded (runOps esc ops e) tg c = tgRecorded e tg c := by
  induction ops generalizing e with
  | nil => rfl
  | cons op rest ih =>
    have hrest : ∀ b, Op.setTaskGroupEligibility b tg c ∉ rest :=
      fun b hb => h b (List.mem_cons_of_mem _ hb)
    show tgRecorded (runOps esc rest (Op.apply esc e op)) tg c = _
    rw [ih _ hrest]
    cases op with
    | setJob job => exact tgRecorded_SetJob esc e job tg c
    | setJobEligibility b c' => exact tgRecorded_SetJobEligibility e b c' tg c
    | setTaskGroupEligibility b tg' c' =>
      simp only [Op.apply, tgRecorded_SetTaskGroupEligibility]
      have : ¬ (tg = tg' ∧ c = c') := by
        rintro ⟨h1, h2⟩
        subst h1; subst h2
        exact h b (List.mem_cons_self _ _)
      rw [if_neg this]

theorem OnlyVerdicts_apply (esc : List Constraint → List Constraint)
    (e : EvalEligibility Constraint) (op : Op Constraint) (h : OnlyVerdicts e) :
    OnlyVerdicts (Op.apply esc e op) := by
  obtain ⟨hj, ht⟩ := h
  cases op with
  | setJob job =>
    refine ⟨fun c s hs => hj c s ?_, fun tg c s hs => ht tg c s ?_⟩
    · simpa only [Op.apply, SetJob_job] using hs
    · simpa only [Op.apply, tgRecorded_SetJob] using hs
  | setJobEligibility b c' =>
    refine ⟨fun c s hs => ?_, fun tg c s hs => ht tg c s ?_⟩
    · simp only [Op.apply, SetJobEligibility_job, mapSet] at hs
      by_cases h1 : c = c'
      · rw [if_pos h1] at hs
        cases b <;> simp_all
      · rw [if_neg h1] at hs
        exact hj c s hs
    · simpa only [Op.apply, tgRecorded_SetJobEligibility] using hs
  | setTaskGroupEligibility b tg' c' =>
    refine ⟨fun c s hs => hj c s ?_, fun tg c s hs => ?_⟩
    · simpa only [Op.apply, SetTaskGroupEligibility_job] using hs
    · simp only [Op.apply, tgRecorded_SetTaskGroupEligibility] at hs
      by_cases h1 : tg = tg' ∧ c = c'
      · rw [if_pos h1] at hs
        cases b <;> simp_all
      · rw [if_neg h1] at hs
        exact ht tg c s hs

/-- Every tracker reached from `NewEvalEligibility` records verdicts only. -/
theorem OnlyVerdicts_runOps (esc : List Constraint → List Constraint)
    (ops : List (Op Constraint)) :
    OnlyVerdicts (runOps esc ops (NewEvalEligibility : EvalEligibility Constraint)) := by
  induction ops using List.reverseRecOn with
  | nil =>
    refine ⟨fun c s hs => ?_, fun tg c s hs => ?_⟩
    · simp [runOps, NewEvalEligibility, mapEmpty] at hs
    · simp [runOps, tgRecorded, NewEvalEligibility, mapEmpty] at hs
  | append_singleton ops op ih =>
    rw [runOps_append]
    exact OnlyVerdicts_apply esc _ op ih

theorem tgConstraints_eq (tg : TaskGroup Constraint) :
    tgConstraints tg = tg.Constraints ++ (tg.Tasks.map Task.Constraints).flatten := by
  unfold tgConstraints
  generalize tg.Constraints = cs
  induction tg.Tasks generalizing cs with
  | nil => simp
  | cons t rest ih => simp [List.foldl_cons, ih, List.append_assoc]

theorem foldl_step_tgEscapedConstraints (esc : List Constraint → List Constraint)
    (tgs : List (TaskGroup Constraint)) (e : EvalEligibility Constraint)
    (tg : TaskGroup Constraint) (hmem : tg ∈ tgs)
    (huniq : ∀ tg' ∈ tgs, tg'.Name = tg.Name → tg' = tg) :
    (tgs.foldl (SetJob.step esc) e).tgEscapedConstraints tg.Name
      = some (esc (tgConstraints tg)) := by
  induction tgs using List.reverseRecOn with
  | nil => simp at hmem
  | append_singleton tgs x ih =>
    rw [List.foldl_append]
    simp only [List.foldl_cons, List.foldl_nil, SetJob.step, mapSet]
    by_cases hx : tg.Name = x.Name
    · have : x = tg := huniq x (by simp) hx.symm
      subst this
      simp
    · rw [if_neg hx]
      apply ih
      · rcases List.mem_append.mp hmem with h | h
        · exact h
        · simp only [List.mem_singleton] at h
          exact absurd (by rw [h]) hx
      · intro tg' h' hn
        exact huniq tg' (List.mem_append_left _ h') hn

theorem runOps_append_ops (esc : List Constraint → List Constraint)
    (ops0 ops1 : List (Op Constraint)) (e : EvalEligibility Constraint) :
    runOps esc (ops0 ++ ops1) e = runOps esc ops1 (runOps esc ops0 e) := by
  simp [runOps, List.foldl_append]

/-- `TaskGroupStatus` reads the tracker only through the escaped set stored for
the task group and the status recorded for the pair. -/
theorem TaskGroupStatus_eq (e : EvalEligibility Constraint) (tg : String) (c : Nat) :
    TaskGroupStatus e tg c =
      if c = 0 then EvalComputedClassEscaped
      else if (match e.tgEscapedConstraints tg with
          | some escaped => decide (escaped.length ≠ 0)
          | none => false) then EvalComputedClassEscaped
      else (tgRecorded e tg c).getD EvalComputedClassUnknown := by
  unfold TaskGroupStatus tgRecorded
  cases e.taskGroups tg with
  | none => rfl
  | some classes =>
    simp only
    cases classes c <;> rfl

theorem TaskGroupStatus_congr (e e' : EvalEligibility Constraint) (tg : String) (c : Nat)
    (h1 : e.tgEscapedConstraints tg = e'.tgEscapedConstraints tg)
    (h2 : tgRecorded e tg c = tgRecorded e' tg c) :
    TaskGroupStatus e tg c = TaskGroupStatus e' tg c := by
  rw [TaskGroupStatus_eq, TaskGroupStatus_eq, h1, h2]

theorem JobStatus_congr (e e' : EvalEligibility Constraint) (c : Nat)
    (h1 : e.jobEscapedConstraints = e'.jobEscapedConstraints) (h2 : e.job c = e'.job c) :
    JobStatus e c = JobStatus e' c := by
  unfold JobStatus
  rw [h1, h2]

/-- The status recorded for a pair after a sequence of calls: the last verdict
written for the pair, else the status that was recorded before. -/
theorem runOps_tgRecorded (esc : List Constraint → List Constraint)
    (ops : List (Op Constraint)) (e : EvalEligibility Constraint) (tg : String) (c : Nat) :
    tgRecorded (runOps esc ops e) tg c =
      match lastTaskGroupEligibility ops tg c with
      | some b => some (if b then EvalComputedClassEligible else EvalComputedClassIneligible)
      | none => tgRecorded e tg c := by
  induction ops using List.reverseRecOn with
  | nil => rfl
  | append_singleton ops op ih =>
    rw [runOps_append]
    have hl : lastTaskGroupEligibility (ops ++ [op]) tg c =
        match op with
        | .setTaskGroupEligibility eligible tg' c' =>
          if tg' = tg ∧ c' = c then some eligible else lastTaskGroupEligibility ops tg c
        | _ => lastTaskGroupEligibility ops tg c := by
      simp [lastTaskGroupEligibility, List.foldl_append]
    rw [hl]
    cases op with
    | setJob job => simp only [Op.apply, tgRecorded_SetJob]; exact ih
    | setJobEligibility b c' => simp only [Op.apply, tgRecorded_SetJobEligibility]; exact ih
    | setTaskGroupEligibility b tg' c' =>
      simp only [Op.apply, tgRecorded_SetTaskGroupEligibility]
      by_cases hp : tg = tg' ∧ c = c'
      · obtain ⟨h1, h2⟩ := hp
        subst h1; subst h2
        simp
      · have hp' : ¬ (tg' = tg ∧ c' = c) := fun h => hp ⟨h.1.symm, h.2.symm⟩
        rw [if_neg hp, if_neg hp']
        exact ih

/-- A status of Eligible or Ineligible returned by `JobStatus` is the entry of
the job-level class map. -/
theorem job_of_JobStatus_verdict (e : EvalEligibility Constraint) (c : Nat)
    (h : JobStatus e c = EvalComputedClassEligible ∨ JobStatus e c = EvalComputedClassIneligible) :
    e.job c = some (JobStatus e c) := by
  unfold JobStatus at h ⊢
  split_ifs at h ⊢ with h1
  · simp at h
  · cases hj : e.job c with
    | none => rw [hj] at h; simp at h
    | some s => rfl

/-- A status of Eligible or Ineligible returned by `TaskGroupStatus` is the
status recorded for the pair. -/
theorem tgRecorded_of_TaskGroupStatus_verdict (e : EvalEligibility Constraint) (tg : String)
    (c : Nat)
    (h : TaskGroupStatus e tg c = EvalComputedClassEligible ∨
      TaskGroupStatus e tg c = EvalComputedClassIneligible) :
    tgRecorded e tg c = some (TaskGroupStatus e tg c) := by
  rw [TaskGroupStatus_eq] at h ⊢
  split_ifs at h ⊢ with h1 h2
  · simp at h
  · simp at h
  · cases hr : tgRecorded e tg c with
    | none => rw [hr] at h; simp at h
    | some s => rfl

theorem JobStatus_ne_unknown_of_recorded (e : EvalEligibility Constraint) (c : Nat)
    (hv : OnlyVerdicts e) (s : ComputedClassFeasibility) (h : e.job c = some s) :
    JobStatus e c ≠ EvalComputedClassUnknown := by
  unfold JobStatus
  split_ifs with h1
  · simp
  · rw [h]
    rcases hv.1 c s h with hs | hs <;> rw [hs] <;> simp

theorem TaskGroupStatus_ne_unknown_of_recorded (e : EvalEligibility Constraint) (tg : String)
    (c : Nat) (hv : OnlyVerdicts e) (s : ComputedClassFeasibility)
    (h : tgRecorded e tg c = some s) :
    TaskGroupStatus e tg c ≠ EvalComputedClassUnknown := by
  rw [TaskGroupStatus_eq]
  split_ifs with h1 h2
  · simp
  · simp
  · rw [h]
    rcases hv.2 tg c s h with hs | hs <;> rw [hs] <;> simp

/-- With verdicts only in the class maps, `JobStatus` is Escaped exactly on the
two tests of its first branch. -/
theorem JobStatus_escaped_iff (e : EvalEligibility Constraint) (c : Nat)
    (hv : OnlyVerdicts e) :
    JobStatus e c = EvalComputedClassEscaped ↔ (e.jobEscapedConstraints ≠ [] ∨ c = 0) := by
  constructor
  · intro h
    by_contra hcon
    push_neg at hcon
    obtain ⟨h1, h2⟩ := hcon
    rw [JobStatus_of_not_escaped e c h1 h2] at h
    cases hj : e.job c with
    | none => rw [hj] at h; simp at h
    | some s =>
      rw [hj] at h
      simp only [Option.getD_some] at h
      rcases hv.1 c s hj with hs | hs <;> rw [hs] at h <;> simp at h
  · rintro (h | h)
    · exact JobStatus_of_escaped e c h
    · rw [h]; exact JobStatus_zero e

/-- With verdicts only in the class maps, `TaskGroupStatus` is Escaped exactly
on its two escape tests. -/
theorem TaskGroupStatus_escaped_iff (e : EvalEligibility Constraint) (tg : String) (c : Nat)
    (hv : OnlyVerdicts e) :
    TaskGroupStatus e tg c = EvalComputedClassEscaped ↔
      (c = 0 ∨ ∃ l, e.tgEscapedConstraints tg = some l ∧ l ≠ []) := by
  constructor
  · intro h
    by_contra hcon
    push_neg at hcon
    obtain ⟨h1, h2⟩ := hcon
    have h3 : ∀ l, e.tgEscapedConstraints tg = some l → l = [] := h2
    rw [TaskGroupStatus_of_not_escaped e tg c h1 h3] at h
    cases hr : tgRecorded e tg c with
    | none => rw [hr] at h; simp at h
    | some s =>
      rw [hr] at h
      simp only [Option.getD_some] at h
      rcases hv.2 tg c s hr with hs | hs <;> rw [hs] at h <;> simp at h
  · exact TaskGroupStatus_of_escaped e tg c

theorem EvalEligibility.eq_of_fields (e e' : EvalEligibility Constraint)
    (h1 : e.job = e'.job) (h2 : e.jobEscapedConstraints = e'.jobEscapedConstraints)
    (h3 : e.taskGroups = e'.taskGroups)
    (h4 : e.tgEscapedConstraints = e'.tgEscapedConstraints) : e = e' := by
  cases e; cases e'
  simp only at h1 h2 h3 h4
  subst h1; subst h2; subst h3; subst h4
  rfl

/-- The task-group loop of `SetJob` leaves the entry of a name no task group has. -/
theorem foldl_step_tgEscapedConstraints_other (esc : List Constraint → List Constraint)
    (tgs : List (TaskGroup Constraint)) (e : EvalEligibility Constraint) (n : String)
    (h : ∀ tg ∈ tgs, tg.Name ≠ n) :
    (tgs.foldl (SetJob.step esc) e).tgEscapedConstraints n = e.tgEscapedConstraints n := by
  induction tgs generalizing e with
  | nil => rfl
  | cons tg rest ih =>
    rw [List.foldl_cons, ih _ (fun t ht => h t (List.mem_cons_of_mem _ ht))]
    have hne : ¬ n = tg.Name := fun hn => h tg (List.mem_cons_self _ _) hn.symm
    simp [SetJob.step, mapSet, hne]

/-- The entry the task-group loop of `SetJob` leaves under a name depends on the
tracker it starts from only through that entry, and not at all when some task
group has the name. -/
theorem foldl_step_tgEscapedConstraints_congr (esc : List Constraint → List Constraint)
    (tgs : List (TaskGroup Constraint)) (e e' : EvalEligibility Constraint) (n : String)
    (h : e.tgEscapedConstraints n = e'.tgEscapedConstraints n ∨ ∃ tg ∈ tgs, tg.Name = n) :
    (tgs.foldl (SetJob.step esc) e).tgEscapedConstraints n
      = (tgs.foldl (SetJob.step esc) e').tgEscapedConstraints n := by
  induction tgs generalizing e e' with
  | nil =>
    rcases h with h | ⟨tg, hmem, -⟩
    · exact h
    · simp at hmem
  | cons tg rest ih =>
    rw [List.foldl_cons, List.foldl_cons]
    by_cases hn : n = tg.Name
    · apply ih
      left
      simp [SetJob.step, mapSet, hn]
    · rcases h with h | ⟨tg0, hmem, hname⟩
      · apply ih
        left
        simp [SetJob.step, mapSet, hn, h]
      · rcases List.mem_cons.mp hmem with h0 | h0
        · exact absurd (by rw [← hname, h0]) hn
        · exact ih _ _ (Or.inr ⟨tg0, h0, hname⟩)

theorem SetJob_idempotent (esc : List Constraint → List Constraint)
    (e : EvalEligibility Constraint) (job : Job Constraint) :
    SetJob esc (SetJob esc e job) job = SetJob esc e job := by
  apply EvalEligibility.eq_of_fields
  · rw [SetJob_job]
  · rw [SetJob_jobEscapedConstraints, SetJob_jobEscapedConstraints]
  · rw [SetJob_taskGroups]
  · funext n
    by_cases hn : ∃ tg ∈ job.TaskGroups, tg.Name = n
    · unfold SetJob
      exact foldl_step_tgEscapedConstraints_congr esc job.TaskGroups _ _ n (Or.inr hn)
    · have hn' : ∀ tg ∈ job.TaskGroups, tg.Name ≠ n := fun tg htg hname => hn ⟨tg, htg, hname⟩
      show (job.TaskGroups.foldl (SetJob.step esc) _).tgEscapedConstraints n = _
      rw [foldl_step_tgEscapedConstraints_other esc job.TaskGroups _ n hn']

end TrackerLemmas

/-! ## Lemmas for `ProposedAllocs` -/

section ContextLemmas

variable {σ Allocation Err Constraint Regexp VersionConstraints AllocMetric Logger : Type}

theorem Slice.toList_append {α : Type} (s xs : Slice α) :
    (s.append xs).toList = s.toList ++ xs.toList := by
  cases s with
  | nil =>
    unfold Slice.append
    cases h : xs.toList <;> simp [Slice.toList]
  | mk elems => simp [Slice.append, Slice.toList]

theorem Slice.eq_mk_of_not_isNil {α : Type} (s : Slice α) (h : s.isNil = false) :
    s = Slice.mk s.toList := by
  cases s with
  | nil => simp [Slice.isNil] at h
  | mk elems => rfl

theorem Slice.toList_eq_nil_of_len {α : Type} (s : Slice α) (h : s.len = 0) :
    s.toList = [] := by
  simpa [Slice.len, List.length_eq_zero] using h

/-- The failing branch of `ProposedAllocs`. -/
theorem ProposedAllocs_of_error
    (F : Slice Allocation → Slice Allocation)
    (R : Slice Allocation → Slice Allocation → Slice Allocation)
    (e : EvalContext σ Allocation Err Constraint Regexp VersionConstraints AllocMetric Logger)
    (nodeID : String) (st st' : σ) (existing : Slice Allocation) (err : Err)
    (h : e.state.AllocsByNode nodeID st = ((existing, some err), st')) :
    e.ProposedAllocs F R nodeID st = ((Slice.nil, some err), st') := by
  simp only [EvalContext.ProposedAllocs, h]

/-- The succeeding branch of `ProposedAllocs`: an allocated slice holding what
was kept of the existing allocations, then the placements. -/
theorem ProposedAllocs_of_ok
    (F : Slice Allocation → Slice Allocation)
    (R : Slice Allocation → Slice Allocation → Slice Allocation)
    (e : EvalContext σ Allocation Err Constraint Regexp VersionConstraints AllocMetric Logger)
    (nodeID : String) (st st' : σ) (existing : Slice Allocation)
    (h : e.state.AllocsByNode nodeID st = ((existing, none), st')) :
    e.ProposedAllocs F R nodeID st =
      ((Slice.mk ((keptAllocs F R e.plan nodeID existing).toList
          ++ (e.plan.NodeAllocation nodeID).toList), none), st') := by
  simp only [EvalContext.ProposedAllocs, h, keptAllocs]
  congr 2
  generalize (if (e.plan.NodeUpdate nodeID).len > 0 then
    R (F existing) (e.plan.NodeUpdate nodeID) else F existing) = kept
  cases hn : (kept.append (e.plan.NodeAllocation nodeID)).isNil with
  | true =>
    simp only [if_true]
    have h1 := Slice.toList_append kept (e.plan.NodeAllocation nodeID)
    cases hk : kept.append (e.plan.NodeAllocation nodeID) with
    | nil =>
      rw [hk] at h1
      have h2 : ([] : List Allocation)
          = kept.toList ++ (e.plan.NodeAllocation nodeID).toList := h1
      rw [← h2]
    | mk l => rw [hk] at hn; simp [Slice.isNil] at hn
  | false =>
    simp only [Bool.false_eq_true, if_false]
    rw [Slice.eq_mk_of_not_isNil _ hn, Slice.toList_append]

theorem FilterTerminalAllocs_toList (TerminalStatus : Allocation → Bool) (s : Slice Allocation) :
    (FilterTerminalAllocs TerminalStatus s).toList
      = s.toList.filter (fun a => !TerminalStatus a) := by
  cases s <;> simp [FilterTerminalAllocs, Slice.toList]

theorem RemoveAllocs_toList (ID : Allocation → String) (s u : Slice Allocation) :
    (RemoveAllocs ID s u).toList
      = s.toList.filter (fun a => decide (ID a ∉ u.toList.map ID)) := by
  cases s <;> simp [RemoveAllocs, Slice.toList]

/-- What is kept, up to order, when the two helpers keep the non-terminal
allocations and drop the evicted IDs up to order. -/
theorem keptAllocs_perm (ID : Allocation → String) (TerminalStatus : Allocation → Bool)
    (F : Slice Allocation → Slice Allocation)
    (R : Slice Allocation → Slice Allocation → Slice Allocation)
    (hF : ∀ s, List.Perm (F s).toList (s.toList.filter (fun a => !TerminalStatus a)))
    (hR : ∀ s u, List.Perm (R s u).toList
      (s.toList.filter (fun a => decide (ID a ∉ u.toList.map ID))))
    (p : Plan Allocation) (nodeID : String) (existing : Slice Allocation) :
    List.Perm (keptAllocs F R p nodeID existing).toList
      (existing.toList.filter (fun a =>
        !TerminalStatus a && decide (ID a ∉ (p.NodeUpdate nodeID).toList.map ID))) := by
  unfold keptAllocs
  by_cases hu : (p.NodeUpdate nodeID).len > 0
  · rw [if_pos hu]
    refine (hR _ _).trans ?_
    refine ((hF existing).filter _).trans ?_
    rw [List.filter_filter]
    simp only [Bool.and_comm]
    exact List.Perm.refl _
  · rw [if_neg hu]
    have h0 : (p.NodeUpdate nodeID).toList = [] :=
      Slice.toList_eq_nil_of_len _ (by omega)
    refine (hF existing).trans ?_
    simp [h0]

/-- What is kept, in order, when the two helpers are order-keeping filters. -/
theorem keptAllocs_eq (ID : Allocation → String) (TerminalStatus : Allocation → Bool)
    (F : Slice Allocation → Slice Allocation)
    (R : Slice Allocation → Slice Allocation → Slice Allocation)
    (hF : ∀ s, (F s).toList = s.toList.filter (fun a => !TerminalStatus a))
    (hR : ∀ s u, (R s u).toList
      = s.toList.filter (fun a => decide (ID a ∉ u.toList.map ID)))
    (p : Plan Allocation) (nodeID : String) (existing : Slice Allocation) :
    (keptAllocs F R p nodeID existing).toList
      = existing.toList.filter (fun a =>
        !TerminalStatus a && decide (ID a ∉ (p.NodeUpdate nodeID).toList.map ID)) := by
  unfold keptAllocs
  by_cases hu : (p.NodeUpdate nodeID).len > 0
  · rw [if_pos hu, hR, hF, List.filter_filter]
    simp only [Bool.and_comm]
  · rw [if_neg hu]
    have h0 : (p.NodeUpdate nodeID).toList = [] :=
      Slice.toList_eq_nil_of_len _ (by omega)
    rw [hF]
    simp [h0]

end ContextLemmas

/-! ## The claims -/

section Claims

variable {Constraint : Type}

/-- C1: in every tracker state reached from `NewEvalEligibility` by any sequence
of `SetJob`, `SetJobEligibility` and `SetTaskGroupEligibility` calls,
`JobStatus(0)` is `EvalComputedClassEscaped`; also directly after
`SetJobEligibility(true, 0)` and `SetJobEligibility(false, 0)` on any tracker. -/
theorem C1_JobStatus_class_zero_escaped (esc : List Constraint → List Constraint) :
    (∀ ops : List (Op Constraint),
      JobStatus (runOps esc ops NewEvalEligibility) 0 = EvalComputedClassEscaped) ∧
    (∀ (e : EvalEligibility Constraint) (b : Bool),
      JobStatus (SetJobEligibility e b 0) 0 = EvalComputedClassEscaped) :=
  ⟨fun _ => JobStatus_zero _, fun _ _ => JobStatus_zero _⟩

/-- C2: when `EscapedConstraints(job.Constraints)` is non-empty, then after
`SetJob(job)` on any tracker `JobStatus(c)` is `EvalComputedClassEscaped` for
every class `c`, also after any further sequence `calls` of
`SetJobEligibility(b, c')` calls. -/
theorem C2_JobStatus_escaped_job (esc : List Constraint → List Constraint)
    (e : EvalEligibility Constraint) (job : Job Constraint)
    (h : esc job.Constraints ≠ []) (calls : List (Bool × Nat)) (c : Nat) :
    JobStatus (calls.foldl (fun t p => SetJobEligibility t p.1 p.2) (SetJob esc e job)) c
      = EvalComputedClassEscaped := by
  apply JobStatus_of_escaped
  rw [foldl_SetJobEligibility_jobEscapedConstraints, SetJob_jobEscapedConstraints]
  exact h

theorem C2_JobStatus_escaped_job_witness :
    (id ([1] : List Nat) ≠ []) ∧
    JobStatus (SetJobEligibility (SetJob id NewEvalEligibility ⟨[1], []⟩) true 5) 5
      = EvalComputedClassEscaped :=
  ⟨by decide,
   C2_JobStatus_escaped_job id NewEvalEligibility ⟨[1], []⟩ (by decide) [(true, 5)] 5⟩

/-- C3: for a class `c != 0` and an empty job-level escaped set: in a tracker
reached from `NewEvalEligibility`, `JobStatus(c)` is Unknown when no
`SetJobEligibility` call was made for `c`, and otherwise Eligible or Ineligible
as the last such call says; on any tracker, `SetJobEligibility(true, c)` gives
Eligible, `SetJobEligibility(false, c)` gives Ineligible, after a run of calls
for `c` the last one decides, and repeating a write leaves the tracker as it is. -/
theorem C3_JobStatus_last_write_wins (esc : List Constraint → List Constraint)
    (c : Nat) (hc : c ≠ 0) :
    (∀ ops : List (Op Constraint),
      (runOps esc ops NewEvalEligibility).jobEscapedConstraints = [] →
      JobStatus (runOps esc ops NewEvalEligibility) c =
        match lastJobEligibility ops c with
        | none => EvalComputedClassUnknown
        | some true => EvalComputedClassEligible
        | some false => EvalComputedClassIneligible) ∧
    (∀ e : EvalEligibility Constraint, e.jobEscapedConstraints = [] →
      JobStatus (SetJobEligibility e true c) c = EvalComputedClassEligible ∧
      JobStatus (SetJobEligibility e false c) c = EvalComputedClassIneligible ∧
      (∀ (bs : List Bool) (b : Bool),
        JobStatus (SetJobEligibility (bs.foldl (fun t b' => SetJobEligibility t b' c) e) b c) c
          = if b then EvalComputedClassEligible else EvalComputedClassIneligible) ∧
      (∀ b : Bool, SetJobEligibility (SetJobEligibility e b c) b c = SetJobEligibility e b c)) := by
  refine ⟨fun ops hesc => ?_, fun e hesc => ⟨?_, ?_, fun bs b => ?_, fun b => ?_⟩⟩
  · rw [JobStatus_of_not_escaped _ _ hesc hc, runOps_job]
    rcases lastJobEligibility ops c with _ | b
    · rfl
    · cases b <;> rfl
  · rw [JobStatus_after_SetJobEligibility _ _ _ hesc hc]; rfl
  · rw [JobStatus_after_SetJobEligibility _ _ _ hesc hc]; rfl
  · apply JobStatus_after_SetJobEligibility _ _ _ _ hc
    have : ∀ t : EvalEligibility Constraint,
        (bs.foldl (fun t b' => SetJobEligibility t b' c) t).jobEscapedConstraints
          = t.jobEscapedConstraints := by
      induction bs with
      | nil => intro t; rfl
      | cons b' rest ih =>
        intro t
        simp only [List.foldl_cons, ih, SetJobEligibility_jobEscapedConstraints]
    rw [this, hesc]
  · cases b <;>
    · simp only [SetJobEligibility, if_true, if_false, Bool.false_eq_true]
      congr 1
      funext k
      simp only [mapSet]
      split_ifs <;> rfl

theorem C3_JobStatus_last_write_wins_witness :
    ((5 : Nat) ≠ 0) ∧
    JobStatus (runOps (id : List Nat → List Nat)
      [Op.setJobEligibility true 5, Op.setJobEligibility false 5] NewEvalEligibility) 5
      = EvalComputedClassIneligible :=
  ⟨by decide,
   (C3_JobStatus_last_write_wins id 5 (by decide)).1
     [Op.setJobEligibility true 5, Op.setJobEligibility false 5] rfl⟩

/-- C4: `TaskGroupStatus(tg, c)` is `EvalComputedClassEscaped` whenever `c == 0`
or the escaped set stored for `tg` is non-empty, on every tracker state, and
also right after `SetTaskGroupEligibility(b, tg, c)` recorded a status for the
pair: the escape takes precedence over the recorded status. -/
theorem C4_TaskGroupStatus_escaped (e : EvalEligibility Constraint) (tg : String) (c : Nat)
    (h : c = 0 ∨ ∃ l, e.tgEscapedConstraints tg = some l ∧ l ≠ []) :
    TaskGroupStatus e tg c = EvalComputedClassEscaped ∧
    (∀ b : Bool,
      TaskGroupStatus (SetTaskGroupEligibility e b tg c) tg c = EvalComputedClassEscaped) :=
  ⟨TaskGroupStatus_of_escaped e tg c h,
   fun b => TaskGroupStatus_of_escaped _ tg c
     (by rw [SetTaskGroupEligibility_tgEscapedConstraints]; exact h)⟩

theorem C4_TaskGroupStatus_escaped_witness :
    ((3 : Nat) = 0 ∨ ∃ l, (SetJob (id : List Nat → List Nat) NewEvalEligibility
        ⟨[], [⟨"web", [7], []⟩]⟩).tgEscapedConstraints "web" = some l ∧ l ≠ []) ∧
    TaskGroupStatus (SetTaskGroupEligibility (SetJob (id : List Nat → List Nat)
        NewEvalEligibility ⟨[], [⟨"web", [7], []⟩]⟩) true "web" 3) "web" 3
      = EvalComputedClassEscaped :=
  ⟨Or.inr ⟨[7], by decide, by decide⟩,
   (C4_TaskGroupStatus_escaped _ "web" 3 (Or.inr ⟨[7], by decide, by decide⟩)).2 true⟩


/-- C5: for a class `c != 0`, in a tracker reached from `NewEvalEligibility`
that holds no non-empty escaped set for `tg` and on which no
`SetTaskGroupEligibility` call was made for the pair (`tg`, `c`),
`TaskGroupStatus(tg, c)` is Unknown; in particular on the fresh tracker
(`SetJob` never called) and for a `tg` with verdicts recorded only for other
classes. -/
theorem C5_TaskGroupStatus_unknown (esc : List Constraint → List Constraint)
    (tg : String) (c : Nat) (hc : c ≠ 0) :
    (∀ ops : List (Op Constraint),
      (∀ l, (runOps esc ops NewEvalEligibility).tgEscapedConstraints tg = some l → l = []) →
      (∀ b, Op.setTaskGroupEligibility b tg c ∉ ops) →
      TaskGroupStatus (runOps esc ops NewEvalEligibility) tg c = EvalComputedClassUnknown) ∧
    TaskGroupStatus (NewEvalEligibility : EvalEligibility Constraint) tg c
      = EvalComputedClassUnknown ∧
    (∀ calls : List (Bool × Nat), (∀ p ∈ calls, p.2 ≠ c) →
      TaskGroupStatus
        (calls.foldl (fun t p => SetTaskGroupEligibility t p.1 tg p.2)
          (NewEvalEligibility : EvalEligibility Constraint)) tg c
        = EvalComputedClassUnknown) := by
  have key : ∀ ops : List (Op Constraint),
      (∀ l, (runOps esc ops NewEvalEligibility).tgEscapedConstraints tg = some l → l = []) →
      (∀ b, Op.setTaskGroupEligibility b tg c ∉ ops) →
      TaskGroupStatus (runOps esc ops NewEvalEligibility) tg c = EvalComputedClassUnknown := by
    intro ops hesc hw
    rw [TaskGroupStatus_of_not_escaped _ _ _ hc hesc,
      runOps_tgRecorded_of_not_written esc ops _ tg c hw]
    rfl
  refine ⟨key, ?_, fun calls hcalls => ?_⟩
  · exact key [] (fun l hl => by simp [runOps, NewEvalEligibility, mapEmpty] at hl)
      (fun b hb => by simp at hb)
  · have hfold : ∀ t : EvalEligibility Constraint,
        calls.foldl (fun t p => SetTaskGroupEligibility t p.1 tg p.2) t
          = runOps esc (calls.map (fun p => Op.setTaskGroupEligibility p.1 tg p.2)) t := by
      induction calls with
      | nil => intro t; rfl
      | cons p rest ih =>
        intro t
        simp only [List.foldl_cons, List.map_cons, runOps]
        rw [ih (fun q hq => hcalls q (List.mem_cons_of_mem _ hq))]
        rfl
    have hesc : ∀ (ops : List (Bool × Nat)) (t : EvalEligibility Constraint),
        (ops.foldl (fun t p => SetTaskGroupEligibility t p.1 tg p.2) t).tgEscapedConstraints
          = t.tgEscapedConstraints := by
      intro ops
      induction ops with
      | nil => intro t; rfl
      | cons p rest ih =>
        intro t
        simp only [List.foldl_cons, ih, SetTaskGroupEligibility_tgEscapedConstraints]
    rw [hfold]
    apply key
    · intro l hl
      rw [← hfold, hesc] at hl
      simp [NewEvalEligibility, mapEmpty] at hl
    · intro b hb
      simp only [List.mem_map, Op.setTaskGroupEligibility.injEq] at hb
      obtain ⟨p, hp, -, -, h3⟩ := hb
      exact hcalls p hp h3

theorem C5_TaskGroupStatus_unknown_witness :
    ((3 : Nat) ≠ 0) ∧
    TaskGroupStatus (runOps (id : List Nat → List Nat)
      [Op.setJob ⟨[9], [⟨"web", [], [⟨[]⟩]⟩]⟩,
       Op.setTaskGroupEligibility true "web" 4,
       Op.setTaskGroupEligibility false "db" 3,
       Op.setJobEligibility true 3] NewEvalEligibility) "web" 3
      = EvalComputedClassUnknown :=
  ⟨by decide,
   (C5_TaskGroupStatus_unknown id "web" 3 (by decide)).1 _
     (fun l hl => by
        have h : some ([] : List Nat) = some l := hl
        exact (Option.some.inj h).symm)
     (fun b hb => by
        simp only [List.mem_cons, List.mem_singleton, List.not_mem_nil, or_false,
          Op.setTaskGroupEligibility.injEq, reduceCtorEq, false_or] at hb
        rcases hb with ⟨-, -, h⟩ | ⟨-, h, -⟩
        · exact absurd h (by decide)
        · exact absurd h (by decide))⟩

/-- C6: for a class `c != 0` and a task group `tg` with no escaped constraints
stored, after `SetTaskGroupEligibility(b, tg, c)` the status
`TaskGroupStatus(tg, c)` is Eligible when `b` is true and Ineligible when `b`
is false. When `tg` had no class map the call creates one holding just this
entry; when it had one the entry is set in that map; a second write for the
pair replaces the first. -/
theorem C6_SetTaskGroupEligibility_then_status (e : EvalEligibility Constraint)
    (tg : String) (c : Nat) (b : Bool) (hc : c ≠ 0)
    (hesc : ∀ l, e.tgEscapedConstraints tg = some l → l = []) :
    TaskGroupStatus (SetTaskGroupEligibility e b tg c) tg c
      = (if b then EvalComputedClassEligible else EvalComputedClassIneligible) ∧
    (e.taskGroups tg = none →
      (SetTaskGroupEligibility e b tg c).taskGroups tg
        = some (mapSet mapEmpty c
            (if b then EvalComputedClassEligible else EvalComputedClassIneligible))) ∧
    (∀ classes, e.taskGroups tg = some classes →
      (SetTaskGroupEligibility e b tg c).taskGroups tg
        = some (mapSet classes c
            (if b then EvalComputedClassEligible else EvalComputedClassIneligible))) ∧
    (∀ b' : Bool,
      TaskGroupStatus (SetTaskGroupEligibility (SetTaskGroupEligibility e b' tg c) b tg c) tg c
        = (if b then EvalComputedClassEligible else EvalComputedClassIneligible)) := by
  have key : ∀ t : EvalEligibility Constraint,
      (∀ l, t.tgEscapedConstraints tg = some l → l = []) →
      TaskGroupStatus (SetTaskGroupEligibility t b tg c) tg c
        = (if b then EvalComputedClassEligible else EvalComputedClassIneligible) := by
    intro t ht
    rw [TaskGroupStatus_of_not_escaped _ _ _ hc
        (by rw [SetTaskGroupEligibility_tgEscapedConstraints]; exact ht),
      tgRecorded_SetTaskGroupEligibility]
    simp
  refine ⟨key e hesc, fun hnone => ?_, fun classes hsome => ?_, fun b' => ?_⟩
  · rw [SetTaskGroupEligibility_taskGroups, hnone]; simp [mapSet]
  · rw [SetTaskGroupEligibility_taskGroups, hsome]; simp [mapSet]
  · exact key _ (by rw [SetTaskGroupEligibility_tgEscapedConstraints]; exact hesc)

theorem C6_SetTaskGroupEligibility_then_status_witness :
    ((3 : Nat) ≠ 0) ∧
    TaskGroupStatus (SetTaskGroupEligibility
      (SetTaskGroupEligibility (NewEvalEligibility : EvalEligibility Nat) true "web" 3)
      false "web" 3) "web" 3 = EvalComputedClassIneligible :=
  ⟨by decide,
   (C6_SetTaskGroupEligibility_then_status
     (SetTaskGroupEligibility (NewEvalEligibility : EvalEligibility Nat) true "web" 3)
     "web" 3 false (by decide)
     (fun l hl => by
        have h : (none : Option (List Nat)) = some l := hl
        exact absurd h (by simp))).1⟩

/-- C7: after `SetJob(job)` the stored job-level escaped set is
`EscapedConstraints(job.Constraints)`; for every task group `tg` of the job
whose name no other task group of the job has, the set stored for `tg.Name` is
`EscapedConstraints` of `tg.Constraints` followed by the constraints of each
task in task order; and on a tracker reached from `NewEvalEligibility`, for
`c != 0`, `TaskGroupStatus(tg.Name, c)` is Escaped exactly when
`EscapedConstraints` of that combined list is non-empty. -/
theorem C7_SetJob_escaped_sets (esc : List Constraint → List Constraint)
    (job : Job Constraint) :
    (∀ e : EvalEligibility Constraint,
      (SetJob esc e job).jobEscapedConstraints = esc job.Constraints) ∧
    (∀ (e : EvalEligibility Constraint) (tg : TaskGroup Constraint), tg ∈ job.TaskGroups →
      (∀ tg' ∈ job.TaskGroups, tg'.Name = tg.Name → tg' = tg) →
      (SetJob esc e job).tgEscapedConstraints tg.Name
        = some (esc (tg.Constraints ++ (tg.Tasks.map Task.Constraints).flatten))) ∧
    (∀ (ops : List (Op Constraint)) (tg : TaskGroup Constraint) (c : Nat),
      tg ∈ job.TaskGroups →
      (∀ tg' ∈ job.TaskGroups, tg'.Name = tg.Name → tg' = tg) → c ≠ 0 →
      (TaskGroupStatus (SetJob esc (runOps esc ops NewEvalEligibility) job) tg.Name c
          = EvalComputedClassEscaped
        ↔ esc (tg.Constraints ++ (tg.Tasks.map Task.Constraints).flatten) ≠ [])) := by
  have hstored : ∀ (e : EvalEligibility Constraint) (tg : TaskGroup Constraint),
      tg ∈ job.TaskGroups →
      (∀ tg' ∈ job.TaskGroups, tg'.Name = tg.Name → tg' = tg) →
      (SetJob esc e job).tgEscapedConstraints tg.Name
        = some (esc (tg.Constraints ++ (tg.Tasks.map Task.Constraints).flatten)) := by
    intro e tg hmem huniq
    rw [← tgConstraints_eq]
    exact foldl_step_tgEscapedConstraints esc job.TaskGroups _ tg hmem huniq
  refine ⟨fun e => SetJob_jobEscapedConstraints esc e job, hstored, ?_⟩
  intro ops tg c hmem huniq hc
  have hst := hstored (runOps esc ops NewEvalEligibility) tg hmem huniq
  constructor
  · intro hstatus hempty
    rw [TaskGroupStatus_of_not_escaped _ _ _ hc
        (fun l hl => by rw [hst, hempty] at hl; exact (Option.some.inj hl).symm),
      tgRecorded_SetJob] at hstatus
    have hinv := (OnlyVerdicts_runOps esc ops).2 tg.Name c
    cases hrec : tgRecorded (runOps esc ops NewEvalEligibility) tg.Name c with
    | none => rw [hrec] at hstatus; simp at hstatus
    | some s =>
      rw [hrec] at hstatus
      simp only [Option.getD_some] at hstatus
      rcases hinv s hrec with h | h <;> rw [h] at hstatus <;> simp at hstatus
  · intro hne
    exact TaskGroupStatus_of_escaped _ _ _ (Or.inr ⟨_, hst, hne⟩)

theorem C7_SetJob_escaped_sets_witness :
    (SetJob (List.filter (fun n : Nat => decide (10 ≤ n)))
        (SetTaskGroupEligibility NewEvalEligibility true "web" 3)
        ⟨[1, 20], [⟨"web", [2, 30], [⟨[3]⟩, ⟨[40, 4]⟩]⟩, ⟨"db", [5], [⟨[6]⟩]⟩]⟩
      ).tgEscapedConstraints "web" = some [30, 40] :=
  (C7_SetJob_escaped_sets (List.filter (fun n : Nat => decide (10 ≤ n)))
      ⟨[1, 20], [⟨"web", [2, 30], [⟨[3]⟩, ⟨[40, 4]⟩]⟩, ⟨"db", [5], [⟨[6]⟩]⟩]⟩).2.1
    (SetTaskGroupEligibility NewEvalEligibility true "web" 3)
    ⟨"web", [2, 30], [⟨[3]⟩, ⟨[40, 4]⟩]⟩
    (by simp)
    (by
      intro tg' h' hn
      simp only [List.mem_cons, List.mem_singleton, List.not_mem_nil, or_false] at h'
      rcases h' with h | h
      · exact h
      · rw [h] at hn; exact absurd hn (by decide))

end Claims

section ContextClaims

variable {σ Allocation Err Constraint Regexp VersionConstraints AllocMetric Logger : Type}

/-- C8: when `AllocsByNode(nodeID)` succeeds with `existing`, `ProposedAllocs(nodeID)`
succeeds with the existing allocations that are non-terminal and whose IDs are
not among those of `NodeUpdate[nodeID]`, followed by exactly the placements
`NodeAllocation[nodeID]` in plan order, unfiltered. `FilterTerminalAllocs` and
`RemoveAllocs` are any functions that keep the non-terminal allocations and
drop the allocations with an evicted ID: if they keep the order the result is
that list exactly, if they do so up to order the kept part is a permutation;
the helpers modelled from the spec give that list exactly. -/
theorem C8_ProposedAllocs_result (ID : Allocation → String) (TerminalStatus : Allocation → Bool)
    (F : Slice Allocation → Slice Allocation)
    (R : Slice Allocation → Slice Allocation → Slice Allocation)
    (e : EvalContext σ Allocation Err Constraint Regexp VersionConstraints AllocMetric Logger)
    (nodeID : String) (st st' : σ) (existing : Slice Allocation)
    (h : e.state.AllocsByNode nodeID st = ((existing, none), st')) :
    ((∀ s, (F s).toList = s.toList.filter (fun a => !TerminalStatus a)) →
     (∀ s u, (R s u).toList = s.toList.filter (fun a => decide (ID a ∉ u.toList.map ID))) →
      e.ProposedAllocs F R nodeID st =
        ((Slice.mk (existing.toList.filter (fun a =>
            !TerminalStatus a && decide (ID a ∉ (e.plan.NodeUpdate nodeID).toList.map ID))
          ++ (e.plan.NodeAllocation nodeID).toList), none), st')) ∧
    ((∀ s, List.Perm (F s).toList (s.toList.filter (fun a => !TerminalStatus a))) →
     (∀ s u, List.Perm (R s u).toList
        (s.toList.filter (fun a => decide (ID a ∉ u.toList.map ID)))) →
      ∃ kept : List Allocation,
        List.Perm kept (existing.toList.filter (fun a =>
            !TerminalStatus a && decide (ID a ∉ (e.plan.NodeUpdate nodeID).toList.map ID))) ∧
        e.ProposedAllocs F R nodeID st =
          ((Slice.mk (kept ++ (e.plan.NodeAllocation nodeID).toList), none), st')) ∧
    e.ProposedAllocs (FilterTerminalAllocs TerminalStatus) (RemoveAllocs ID) nodeID st =
      ((Slice.mk (existing.toList.filter (fun a =>
          !TerminalStatus a && decide (ID a ∉ (e.plan.NodeUpdate nodeID).toList.map ID))
        ++ (e.plan.NodeAllocation nodeID).toList), none), st') := by
  refine ⟨fun hF hR => ?_, fun hF hR => ?_, ?_⟩
  · rw [ProposedAllocs_of_ok F R e nodeID st st' existing h,
      keptAllocs_eq ID TerminalStatus F R hF hR]
  · exact ⟨_, keptAllocs_perm ID TerminalStatus F R hF hR e.plan nodeID existing,
      ProposedAllocs_of_ok F R e nodeID st st' existing h⟩
  · rw [ProposedAllocs_of_ok _ _ e nodeID st st' existing h,
      keptAllocs_eq ID TerminalStatus _ _ (FilterTerminalAllocs_toList TerminalStatus)
        (RemoveAllocs_toList ID)]

theorem C8_ProposedAllocs_result_witness :
    exampleContext.ProposedAllocs (FilterTerminalAllocs Prod.snd) (RemoveAllocs Prod.fst) "n1" 0
      = ((Slice.mk [("B", false), ("D", false)], none), 1) :=
  (C8_ProposedAllocs_result Prod.fst Prod.snd (FilterTerminalAllocs Prod.snd)
      (RemoveAllocs Prod.fst) exampleContext "n1" 0 1
      (Slice.mk [("A", false), ("B", false), ("C", true)]) rfl).2.2.trans (by decide)

/-- C9: `ProposedAllocs(nodeID)` fails exactly when `AllocsByNode(nodeID)` fails;
when it fails it returns the nil slice and the accessor's error unchanged; when
the accessor succeeds it succeeds; and in both cases the store is left as one
`AllocsByNode` call leaves it (one call, no retry). -/
theorem C9_ProposedAllocs_error
    (F : Slice Allocation → Slice Allocation)
    (R : Slice Allocation → Slice Allocation → Slice Allocation)
    (e : EvalContext σ Allocation Err Constraint Regexp VersionConstraints AllocMetric Logger)
    (nodeID : String) (st : σ) :
    ((e.ProposedAllocs F R nodeID st).1.2 ≠ none ↔ (e.state.AllocsByNode nodeID st).1.2 ≠ none) ∧
    (∀ err, (e.state.AllocsByNode nodeID st).1.2 = some err →
      (e.ProposedAllocs F R nodeID st).1 = (Slice.nil, some err)) ∧
    ((e.state.AllocsByNode nodeID st).1.2 = none → (e.ProposedAllocs F R nodeID st).1.2 = none) ∧
    (e.ProposedAllocs F R nodeID st).2 = (e.state.AllocsByNode nodeID st).2 := by
  rcases hcall : e.state.AllocsByNode nodeID st with ⟨⟨existing, err⟩, st'⟩
  cases err with
  | none =>
    rw [ProposedAllocs_of_ok F R e nodeID st st' existing hcall]
    simp
  | some err =>
    rw [ProposedAllocs_of_error F R e nodeID st st' existing err hcall]
    simp

theorem C9_ProposedAllocs_error_witness :
    exampleContext.ProposedAllocs (FilterTerminalAllocs Prod.snd) (RemoveAllocs Prod.fst)
        "down" 0
      = ((Slice.nil, some "state store unavailable"), 1) :=
  Prod.ext
    ((C9_ProposedAllocs_error (FilterTerminalAllocs Prod.snd) (RemoveAllocs Prod.fst)
      exampleContext "down" 0).2.1 "state store unavailable" rfl)
    (C9_ProposedAllocs_error (FilterTerminalAllocs Prod.snd) (RemoveAllocs Prod.fst)
      exampleContext "down" 0).2.2.2

/-- C10: whenever `ProposedAllocs(nodeID)` succeeds the returned slice is not nil;
when nothing is kept of the existing allocations and the plan has no placement
for the node, the result is the empty allocated slice. With helpers that keep
the non-terminal allocations and drop the evicted IDs (up to order), nothing is
kept when the accessor returns no or a nil list or when every existing
allocation is terminal or evicted. -/
theorem C10_ProposedAllocs_not_nil
    (F : Slice Allocation → Slice Allocation)
    (R : Slice Allocation → Slice Allocation → Slice Allocation)
    (e : EvalContext σ Allocation Err Constraint Regexp VersionConstraints AllocMetric Logger)
    (nodeID : String) (st : σ) :
    ((e.ProposedAllocs F R nodeID st).1.2 = none →
      (e.ProposedAllocs F R nodeID st).1.1.isNil = false) ∧
    (∀ (existing : Slice Allocation) (st' : σ),
      e.state.AllocsByNode nodeID st = ((existing, none), st') →
      (keptAllocs F R e.plan nodeID existing).len = 0 →
      (e.plan.NodeAllocation nodeID).len = 0 →
      e.ProposedAllocs F R nodeID st = ((Slice.mk [], none), st')) ∧
    (∀ (ID : Allocation → String) (TerminalStatus : Allocation → Bool),
      (∀ s, List.Perm (F s).toList (s.toList.filter (fun a => !TerminalStatus a))) →
      (∀ s u, List.Perm (R s u).toList
        (s.toList.filter (fun a => decide (ID a ∉ u.toList.map ID)))) →
      ∀ (existing : Slice Allocation) (st' : σ),
      e.state.AllocsByNode nodeID st = ((existing, none), st') →
      (∀ a ∈ existing.toList,
        TerminalStatus a = true ∨ ID a ∈ (e.plan.NodeUpdate nodeID).toList.map ID) →
      (e.plan.NodeAllocation nodeID).len = 0 →
      e.ProposedAllocs F R nodeID st = ((Slice.mk [], none), st')) := by
  have hempty : ∀ (existing : Slice Allocation) (st' : σ),
      e.state.AllocsByNode nodeID st = ((existing, none), st') →
      (keptAllocs F R e.plan nodeID existing).len = 0 →
      (e.plan.NodeAllocation nodeID).len = 0 →
      e.ProposedAllocs F R nodeID st = ((Slice.mk [], none), st') := by
    intro existing st' hcall hk hp
    rw [ProposedAllocs_of_ok F R e nodeID st st' existing hcall,
      Slice.toList_eq_nil_of_len _ hk, Slice.toList_eq_nil_of_len _ hp]
    rfl
  refine ⟨?_, hempty, ?_⟩
  · rcases hcall : e.state.AllocsByNode nodeID st with ⟨⟨existing, err⟩, st'⟩
    cases err with
    | none =>
      rw [ProposedAllocs_of_ok F R e nodeID st st' existing hcall]
      intro _; rfl
    | some err =>
      rw [ProposedAllocs_of_error F R e nodeID st st' existing err hcall]
      intro hnone; simp at hnone
  · intro ID TerminalStatus hF hR existing st' hcall hall hp
    apply hempty existing st' hcall _ hp
    have hperm := keptAllocs_perm ID TerminalStatus F R hF hR e.plan nodeID existing
    have hnil : existing.toList.filter (fun a =>
        !TerminalStatus a && decide (ID a ∉ (e.plan.NodeUpdate nodeID).toList.map ID)) = [] := by
      rw [List.filter_eq_nil_iff]
      intro a ha
      rcases hall a ha with h1 | h1
      · simp [h1]
      · simp only [Bool.and_eq_true, Bool.not_eq_true', decide_eq_true_eq, not_and, not_not]
        intro _; exact h1
    rw [hnil] at hperm
    rw [Slice.len, List.Perm.eq_nil hperm]
    rfl

theorem C10_ProposedAllocs_not_nil_witness :
    exampleContext.ProposedAllocs (FilterTerminalAllocs Prod.snd) (RemoveAllocs Prod.fst) "n2" 0
      = ((Slice.mk [], none), 1) :=
  (C10_ProposedAllocs_not_nil (FilterTerminalAllocs Prod.snd) (RemoveAllocs Prod.fst)
      exampleContext "n2" 0).2.2 Prod.fst Prod.snd
    (fun s => by rw [FilterTerminalAllocs_toList])
    (fun s u => by rw [RemoveAllocs_toList])
    Slice.nil 1 rfl (fun a ha => by simp [Slice.toList] at ha) rfl

end ContextClaims

section TrackerInvariantClaims

variable {Constraint : Type}

/-- C14: status transitions are one-way. In a tracker reached from
`NewEvalEligibility` by the calls `ops0`, once `JobStatus(c)` (or
`TaskGroupStatus(tg, c)`) is Eligible or Ineligible, it is not Unknown after any
further calls `ops1`; and an entry of the job-level class map, or a status
recorded for a pair, stays present and is Eligible or Ineligible. -/
theorem C14_status_one_way (esc : List Constraint → List Constraint) :
    (∀ (ops0 ops1 : List (Op Constraint)) (c : Nat),
      (JobStatus (runOps esc ops0 NewEvalEligibility) c = EvalComputedClassEligible ∨
        JobStatus (runOps esc ops0 NewEvalEligibility) c = EvalComputedClassIneligible) →
      JobStatus (runOps esc (ops0 ++ ops1) NewEvalEligibility) c ≠ EvalComputedClassUnknown) ∧
    (∀ (ops0 ops1 : List (Op Constraint)) (tg : String) (c : Nat),
      (TaskGroupStatus (runOps esc ops0 NewEvalEligibility) tg c = EvalComputedClassEligible ∨
        TaskGroupStatus (runOps esc ops0 NewEvalEligibility) tg c
          = EvalComputedClassIneligible) →
      TaskGroupStatus (runOps esc (ops0 ++ ops1) NewEvalEligibility) tg c
        ≠ EvalComputedClassUnknown) ∧
    (∀ (ops0 ops1 : List (Op Constraint)) (c : Nat) (s : ComputedClassFeasibility),
      (runOps esc ops0 NewEvalEligibility).job c = some s →
      ∃ s', (runOps esc (ops0 ++ ops1) NewEvalEligibility).job c = some s' ∧
        (s' = EvalComputedClassEligible ∨ s' = EvalComputedClassIneligible)) ∧
    (∀ (ops0 ops1 : List (Op Constraint)) (tg : String) (c : Nat)
      (s : ComputedClassFeasibility),
      tgRecorded (runOps esc ops0 NewEvalEligibility) tg c = some s →
      ∃ s', tgRecorded (runOps esc (ops0 ++ ops1) NewEvalEligibility) tg c = some s' ∧
        (s' = EvalComputedClassEligible ∨ s' = EvalComputedClassIneligible)) := by
  have hjob : ∀ (ops0 ops1 : List (Op Constraint)) (c : Nat) (s : ComputedClassFeasibility),
      (runOps esc ops0 NewEvalEligibility).job c = some s →
      ∃ s', (runOps esc (ops0 ++ ops1) NewEvalEligibility).job c = some s' ∧
        (s' = EvalComputedClassEligible ∨ s' = EvalComputedClassIneligible) := by
    intro ops0 ops1 c s h
    have hv := OnlyVerdicts_runOps esc (ops0 ++ ops1)
    have hrun : (runOps esc (ops0 ++ ops1) NewEvalEligibility).job c ≠ none := by
      rw [runOps_append_ops, runOps_job]
      cases lastJobEligibility ops1 c with
      | none => simp [h]
      | some b => simp
    cases hj : (runOps esc (ops0 ++ ops1) NewEvalEligibility).job c with
    | none => exact absurd hj hrun
    | some s' => exact ⟨s', rfl, hv.1 c s' hj⟩
  have htg : ∀ (ops0 ops1 : List (Op Constraint)) (tg : String) (c : Nat)
      (s : ComputedClassFeasibility),
      tgRecorded (runOps esc ops0 NewEvalEligibility) tg c = some s →
      ∃ s', tgRecorded (runOps esc (ops0 ++ ops1) NewEvalEligibility) tg c = some s' ∧
        (s' = EvalComputedClassEligible ∨ s' = EvalComputedClassIneligible) := by
    intro ops0 ops1 tg c s h
    have hv := OnlyVerdicts_runOps esc (ops0 ++ ops1)
    have hrun : tgRecorded (runOps esc (ops0 ++ ops1) NewEvalEligibility) tg c ≠ none := by
      rw [runOps_append_ops, runOps_tgRecorded]
      cases lastTaskGroupEligibility ops1 tg c with
      | none => simp [h]
      | some b => simp
    cases hj : tgRecorded (runOps esc (ops0 ++ ops1) NewEvalEligibility) tg c with
    | none => exact absurd hj hrun
    | some s' => exact ⟨s', rfl, hv.2 tg c s' hj⟩
  refine ⟨fun ops0 ops1 c h => ?_, fun ops0 ops1 tg c h => ?_, hjob, htg⟩
  · obtain ⟨s', hs', -⟩ := hjob ops0 ops1 c _ (job_of_JobStatus_verdict _ c h)
    exact JobStatus_ne_unknown_of_recorded _ c (OnlyVerdicts_runOps esc _) s' hs'
  · obtain ⟨s', hs', -⟩ := htg ops0 ops1 tg c _ (tgRecorded_of_TaskGroupStatus_verdict _ tg c h)
    exact TaskGroupStatus_ne_unknown_of_recorded _ tg c (OnlyVerdicts_runOps esc _) s' hs'

theorem C14_status_one_way_witness :
    JobStatus (runOps (id : List Nat → List Nat)
      ([Op.setJobEligibility false 5] ++
        [Op.setTaskGroupEligibility true "web" 5, Op.setJob ⟨[], []⟩, Op.setJobEligibility true 6])
      NewEvalEligibility) 5 ≠ EvalComputedClassUnknown :=
  (C14_status_one_way id).1 [Op.setJobEligibility false 5]
    [Op.setTaskGroupEligibility true "web" 5, Op.setJob ⟨[], []⟩, Op.setJobEligibility true 6]
    5 (Or.inr rfl)

/-- C15: the tracker never reports Eligible on its own. After any sequence of
calls from `NewEvalEligibility`, `JobStatus(c)` is Eligible only if the last
`SetJobEligibility` call for `c` had `eligible = true`, and
`TaskGroupStatus(tg, c)` is Eligible only if the last `SetTaskGroupEligibility`
call for (`tg`, `c`) had `eligible = true`; with no such call the result is
Unknown or Escaped. -/
theorem C15_eligible_only_if_set (esc : List Constraint → List Constraint)
    (ops : List (Op Constraint)) :
    (∀ c, JobStatus (runOps esc ops NewEvalEligibility) c = EvalComputedClassEligible →
      lastJobEligibility ops c = some true) ∧
    (∀ tg c, TaskGroupStatus (runOps esc ops NewEvalEligibility) tg c
        = EvalComputedClassEligible →
      lastTaskGroupEligibility ops tg c = some true) ∧
    (∀ c, lastJobEligibility ops c = none →
      JobStatus (runOps esc ops NewEvalEligibility) c = EvalComputedClassUnknown ∨
      JobStatus (runOps esc ops NewEvalEligibility) c = EvalComputedClassEscaped) ∧
    (∀ tg c, lastTaskGroupEligibility ops tg c = none →
      TaskGroupStatus (runOps esc ops NewEvalEligibility) tg c = EvalComputedClassUnknown ∨
      TaskGroupStatus (runOps esc ops NewEvalEligibility) tg c = EvalComputedClassEscaped) := by
  refine ⟨fun c h => ?_, fun tg c h => ?_, fun c h => ?_, fun tg c h => ?_⟩
  · have hj := job_of_JobStatus_verdict _ c (Or.inl h)
    rw [h, runOps_job] at hj
    cases hl : lastJobEligibility ops c with
    | none => rw [hl] at hj; simp [NewEvalEligibility, mapEmpty] at hj
    | some b => cases b <;> simp [hl] at hj ⊢
  · have hj := tgRecorded_of_TaskGroupStatus_verdict _ tg c (Or.inl h)
    rw [h, runOps_tgRecorded] at hj
    cases hl : lastTaskGroupEligibility ops tg c with
    | none => rw [hl] at hj; simp [tgRecorded, NewEvalEligibility, mapEmpty] at hj
    | some b => cases b <;> simp [hl] at hj ⊢
  · have hj := runOps_job esc ops NewEvalEligibility c
    rw [h] at hj
    unfold JobStatus
    split_ifs with h1
    · exact Or.inr rfl
    · left
      rw [hj]
      rfl
  · have hj := runOps_tgRecorded esc ops NewEvalEligibility tg c
    rw [h] at hj
    rw [TaskGroupStatus_eq]
    split_ifs with h1 h2
    · exact Or.inr rfl
    · exact Or.inr rfl
    · left
      rw [hj]
      rfl

theorem C15_eligible_only_if_set_witness :
    lastTaskGroupEligibility
      [Op.setTaskGroupEligibility false "web" 3, Op.setJob (⟨[], []⟩ : Job Nat),
        Op.setTaskGroupEligibility true "web" 3] "web" 3 = some true :=
  (C15_eligible_only_if_set (id : List Nat → List Nat)
    [Op.setTaskGroupEligibility false "web" 3, Op.setJob ⟨[], []⟩,
      Op.setTaskGroupEligibility true "web" 3]).2.1 "web" 3 (by decide)

/-- C17: recording a verdict touches only its own entry.
`SetJobEligibility(b, c)` leaves `JobStatus(c')` as it was for every `c' != c`,
every `TaskGroupStatus` result, and both kinds of escaped sets;
`SetTaskGroupEligibility(b, tg, c)` leaves `TaskGroupStatus(tg', c')` as it was
for every pair other than (`tg`, `c`), every `JobStatus` result, and both kinds
of escaped sets. -/
theorem C17_verdict_frame (e : EvalEligibility Constraint) (b : Bool) (tg : String) (c : Nat) :
    (∀ c', c' ≠ c → JobStatus (SetJobEligibility e b c) c' = JobStatus e c') ∧
    (∀ tg' c', TaskGroupStatus (SetJobEligibility e b c) tg' c' = TaskGroupStatus e tg' c') ∧
    (SetJobEligibility e b c).jobEscapedConstraints = e.jobEscapedConstraints ∧
    (SetJobEligibility e b c).tgEscapedConstraints = e.tgEscapedConstraints ∧
    (∀ tg' c', (tg', c') ≠ (tg, c) →
      TaskGroupStatus (SetTaskGroupEligibility e b tg c) tg' c' = TaskGroupStatus e tg' c') ∧
    (∀ c', JobStatus (SetTaskGroupEligibility e b tg c) c' = JobStatus e c') ∧
    (SetTaskGroupEligibility e b tg c).jobEscapedConstraints = e.jobEscapedConstraints ∧
    (SetTaskGroupEligibility e b tg c).tgEscapedConstraints = e.tgEscapedConstraints := by
  refine ⟨fun c' hc => ?_, fun tg' c' => ?_, SetJobEligibility_jobEscapedConstraints e b c,
    SetJobEligibility_tgEscapedConstraints e b c, fun tg' c' hne => ?_, fun c' => ?_,
    SetTaskGroupEligibility_jobEscapedConstraints e b tg c,
    SetTaskGroupEligibility_tgEscapedConstraints e b tg c⟩
  · apply JobStatus_congr _ _ _ (SetJobEligibility_jobEscapedConstraints e b c)
    rw [SetJobEligibility_job]
    simp [mapSet, hc]
  · exact TaskGroupStatus_congr _ _ _ _
      (by rw [SetJobEligibility_tgEscapedConstraints])
      (tgRecorded_SetJobEligibility e b c tg' c')
  · apply TaskGroupStatus_congr _ _ _ _
      (by rw [SetTaskGroupEligibility_tgEscapedConstraints])
    rw [tgRecorded_SetTaskGroupEligibility]
    have : ¬ (tg' = tg ∧ c' = c) := by
      rintro ⟨h1, h2⟩
      exact hne (by rw [h1, h2])
    rw [if_neg this]
  · exact JobStatus_congr _ _ _ (SetTaskGroupEligibility_jobEscapedConstraints e b tg c)
      (by rw [SetTaskGroupEligibility_job])

theorem C17_verdict_frame_witness :
    TaskGroupStatus (SetTaskGroupEligibility
        (SetTaskGroupEligibility (NewEvalEligibility : EvalEligibility Nat) false "web" 4)
        true "web" 3) "web" 4
      = TaskGroupStatus
        (SetTaskGroupEligibility (NewEvalEligibility : EvalEligibility Nat) false "web" 4)
        "web" 4 :=
  (C17_verdict_frame
    (SetTaskGroupEligibility (NewEvalEligibility : EvalEligibility Nat) false "web" 4)
    true "web" 3).2.2.2.2.1 "web" 4 (by decide)

/-- C18: a job-level escape does not reach task-group queries. Two trackers
with the same per-task-group class maps and the same per-task-group escaped
sets give the same `TaskGroupStatus(tg, c)` for every `tg` and `c`, whatever
their job-level class maps and job-level escaped sets are; and for a job whose
job-level constraints escape while those of task group `tg` and its tasks do
not, after `SetJob` on a tracker with no status recorded for (`tg.Name`, `c`),
`c != 0`, `TaskGroupStatus(tg.Name, c)` is Unknown while `JobStatus(c)` is
Escaped. -/
theorem C18_job_escape_does_not_leak (esc : List Constraint → List Constraint) :
    (∀ (e e' : EvalEligibility Constraint),
      e.taskGroups = e'.taskGroups → e.tgEscapedConstraints = e'.tgEscapedConstraints →
      ∀ tg c, TaskGroupStatus e tg c = TaskGroupStatus e' tg c) ∧
    (∀ (e : EvalEligibility Constraint) (job : Job Constraint) (tg : TaskGroup Constraint)
      (c : Nat),
      tg ∈ job.TaskGroups → (∀ tg' ∈ job.TaskGroups, tg'.Name = tg.Name → tg' = tg) →
      esc job.Constraints ≠ [] →
      esc (tg.Constraints ++ (tg.Tasks.map Task.Constraints).flatten) = [] →
      c ≠ 0 → tgRecorded e tg.Name c = none →
      TaskGroupStatus (SetJob esc e job) tg.Name c = EvalComputedClassUnknown ∧
      JobStatus (SetJob esc e job) c = EvalComputedClassEscaped) := by
  refine ⟨fun e e' h1 h2 tg c => ?_, fun e job tg c hmem huniq hjob htg hc hrec => ⟨?_, ?_⟩⟩
  · exact TaskGroupStatus_congr e e' tg c (by rw [h2]) (by unfold tgRecorded; rw [h1])
  · have hst : (SetJob esc e job).tgEscapedConstraints tg.Name = some [] := by
      rw [← htg, ← tgConstraints_eq]
      exact foldl_step_tgEscapedConstraints esc job.TaskGroups _ tg hmem huniq
    rw [TaskGroupStatus_of_not_escaped _ _ _ hc
        (fun l hl => by rw [hst] at hl; exact (Option.some.inj hl).symm),
      tgRecorded_SetJob, hrec]
    rfl
  · exact JobStatus_of_escaped _ c (by rw [SetJob_jobEscapedConstraints]; exact hjob)

theorem C18_job_escape_does_not_leak_witness :
    TaskGroupStatus (SetJob (List.filter (fun n : Nat => decide (10 ≤ n)))
        NewEvalEligibility ⟨[20], [⟨"web", [2], [⟨[3]⟩]⟩]⟩) "web" 7
        = EvalComputedClassUnknown ∧
    JobStatus (SetJob (List.filter (fun n : Nat => decide (10 ≤ n)))
        NewEvalEligibility ⟨[20], [⟨"web", [2], [⟨[3]⟩]⟩]⟩) 7
        = EvalComputedClassEscaped :=
  (C18_job_escape_does_not_leak (List.filter (fun n : Nat => decide (10 ≤ n)))).2
    NewEvalEligibility ⟨[20], [⟨"web", [2], [⟨[3]⟩]⟩]⟩ ⟨"web", [2], [⟨[3]⟩]⟩ 7
    (by simp)
    (by
      intro tg' h' _
      simpa using h')
    (by decide) (by decide) (by decide) rfl

/-- C19: in every tracker reached from `NewEvalEligibility` the job-level class
map and every per-task-group class map hold only Eligible or Ineligible; hence
`JobStatus(c)` is Escaped exactly when the job-level escaped set is non-empty
or `c == 0`, and `TaskGroupStatus(tg, c)` is Escaped exactly when `c == 0` or
the escaped set stored for `tg` is non-empty. -/
theorem C19_maps_hold_verdicts_only (esc : List Constraint → List Constraint)
    (ops : List (Op Constraint)) :
    (∀ c s, (runOps esc ops NewEvalEligibility).job c = some s →
      s = EvalComputedClassEligible ∨ s = EvalComputedClassIneligible) ∧
    (∀ tg classes c s, (runOps esc ops NewEvalEligibility).taskGroups tg = some classes →
      classes c = some s →
      s = EvalComputedClassEligible ∨ s = EvalComputedClassIneligible) ∧
    (∀ c, JobStatus (runOps esc ops NewEvalEligibility) c = EvalComputedClassEscaped ↔
      ((runOps esc ops NewEvalEligibility).jobEscapedConstraints ≠ [] ∨ c = 0)) ∧
    (∀ tg c, TaskGroupStatus (runOps esc ops NewEvalEligibility) tg c
        = EvalComputedClassEscaped ↔
      (c = 0 ∨ ∃ l, (runOps esc ops NewEvalEligibility).tgEscapedConstraints tg = some l
        ∧ l ≠ [])) := by
  have hv := OnlyVerdicts_runOps esc ops
  refine ⟨hv.1, fun tg classes c s h1 h2 => hv.2 tg c s ?_,
    fun c => JobStatus_escaped_iff _ c hv, fun tg c => TaskGroupStatus_escaped_iff _ tg c hv⟩
  unfold tgRecorded
  rw [h1]
  exact h2

theorem C19_maps_hold_verdicts_only_witness :
    JobStatus (runOps (id : List Nat → List Nat)
      [Op.setJobEligibility true 5, Op.setJob ⟨[8], []⟩] NewEvalEligibility) 5
      = EvalComputedClassEscaped :=
  ((C19_maps_hold_verdicts_only (id : List Nat → List Nat)
    [Op.setJobEligibility true 5, Op.setJob ⟨[8], []⟩]).2.2.1 5).2 (Or.inl (by decide))

/-- C20: `SetJob` changes only the escaped sets. It leaves the job-level class
map and the per-task-group class maps as they were, so a verdict recorded before
`SetJob` is returned by `JobStatus` / `TaskGroupStatus` after it when no escape
applies; and `SetJob(job)` twice in a row gives the same tracker as once. -/
theorem C20_SetJob_frame_idempotent (esc : List Constraint → List Constraint)
    (e : EvalEligibility Constraint) (job : Job Constraint) :
    (SetJob esc e job).job = e.job ∧
    (SetJob esc e job).taskGroups = e.taskGroups ∧
    (∀ (b : Bool) (c : Nat), c ≠ 0 → esc job.Constraints = [] →
      JobStatus (SetJob esc (SetJobEligibility e b c) job) c
        = if b then EvalComputedClassEligible else EvalComputedClassIneligible) ∧
    (∀ (b : Bool) (tg : String) (c : Nat), c ≠ 0 →
      (∀ l, (SetJob esc (SetTaskGroupEligibility e b tg c) job).tgEscapedConstraints tg
        = some l → l = []) →
      TaskGroupStatus (SetJob esc (SetTaskGroupEligibility e b tg c) job) tg c
        = if b then EvalComputedClassEligible else EvalComputedClassIneligible) ∧
    SetJob esc (SetJob esc e job) job = SetJob esc e job := by
  refine ⟨SetJob_job esc e job, SetJob_taskGroups esc e job, fun b c hc hesc => ?_,
    fun b tg c hc hesc => ?_, SetJob_idempotent esc e job⟩
  · rw [JobStatus_of_not_escaped _ _ (by rw [SetJob_jobEscapedConstraints]; exact hesc) hc,
      SetJob_job, SetJobEligibility_job]
    simp [mapSet]
  · rw [TaskGroupStatus_of_not_escaped _ _ _ hc hesc, tgRecorded_SetJob,
      tgRecorded_SetTaskGroupEligibility]
    simp

theorem C20_SetJob_frame_idempotent_witness :
    JobStatus (SetJob (List.filter (fun n : Nat => decide (10 ≤ n)))
      (SetJobEligibility NewEvalEligibility true 5) ⟨[1], [⟨"web", [30], []⟩]⟩) 5
      = EvalComputedClassEligible :=
  (C20_SetJob_frame_idempotent (List.filter (fun n : Nat => decide (10 ≤ n)))
    NewEvalEligibility ⟨[1], [⟨"web", [30], []⟩]⟩).2.2.1 true 5 (by decide) (by decide)

end TrackerInvariantClaims

section ContextFrameClaims

variable {σ Allocation Err Constraint Regexp VersionConstraints AllocMetric Logger : Type}

/-- C11: `Reset()` replaces the metrics with a fresh empty `AllocMetric`, the
value a new context starts with, whatever the metrics were; it leaves the
state, the plan, the logger, both caches and the eligibility tracker as they
were, so `Eligibility()`, `JobStatus`, `TaskGroupStatus`, `RegexpCache()` and
`ConstraintCache()` give the same results after `Reset` as before. -/
theorem C11_Reset_frame [Inhabited AllocMetric]
    (e : EvalContext σ Allocation Err Constraint Regexp VersionConstraints AllocMetric Logger) :
    e.Reset.metrics = default ∧
    (∀ (s : State σ Allocation Err) (p : Plan Allocation) (log : Logger),
      e.Reset.metrics =
        (NewEvalContext s p log :
          EvalContext σ Allocation Err Constraint Regexp VersionConstraints AllocMetric
            Logger).metrics) ∧
    e.Reset.state = e.state ∧ e.Reset.plan = e.plan ∧ e.Reset.logger = e.logger ∧
    e.Reset.reCache = e.reCache ∧ e.Reset.constraintCache = e.constraintCache ∧
    e.Reset.eligibility = e.eligibility ∧
    e.Reset.Eligibility.1 = e.Eligibility.1 ∧
    (∀ c, JobStatus e.Reset.Eligibility.1 c = JobStatus e.Eligibility.1 c) ∧
    (∀ tg c, TaskGroupStatus e.Reset.Eligibility.1 tg c = TaskGroupStatus e.Eligibility.1 tg c) ∧
    e.Reset.toEvalCache.RegexpCache.1 = e.toEvalCache.RegexpCache.1 ∧
    e.Reset.toEvalCache.ConstraintCache.1 = e.toEvalCache.ConstraintCache.1 := by
  have helig : e.Reset.Eligibility.1 = e.Eligibility.1 := by
    unfold EvalContext.Eligibility EvalContext.Reset
    cases e.eligibility <;> rfl
  refine ⟨rfl, fun _ _ _ => rfl, rfl, rfl, rfl, rfl, rfl, rfl, helig, fun c => ?_,
    fun tg c => ?_, rfl, rfl⟩
  · rw [helig]
  · rw [helig]

theorem C11_Reset_frame_witness :
    (EvalContext.Reset
      ({ (NewEvalContext exampleState examplePlan () :
            EvalContext Nat (String × Bool) String Nat Unit Unit Nat Unit) with
          metrics := 7 })).metrics = 0 :=
  (C11_Reset_frame
    ({ (NewEvalContext exampleState examplePlan () :
          EvalContext Nat (String × Bool) String Nat Unit Unit Nat Unit) with
        metrics := 7 })).1

/-- C12: on a context that has no tracker yet, `Eligibility()` returns an empty
tracker (`JobStatus(c)` and `TaskGroupStatus(tg, c)` are Unknown for `c != 0`)
and stores it in the context; a later `Eligibility()` call returns that stored
tracker and leaves the context as it is, any number of times; and calls made on
the returned tracker are seen through the tracker a later call returns. -/
theorem C12_Eligibility_lazy_shared
    (e : EvalContext σ Allocation Err Constraint Regexp VersionConstraints AllocMetric Logger) :
    (e.eligibility = none →
      e.Eligibility.1 = NewEvalEligibility ∧
      (∀ c, c ≠ 0 → JobStatus e.Eligibility.1 c = EvalComputedClassUnknown) ∧
      (∀ tg c, c ≠ 0 → TaskGroupStatus e.Eligibility.1 tg c = EvalComputedClassUnknown)) ∧
    e.Eligibility.2.eligibility = some e.Eligibility.1 ∧
    e.Eligibility.2.Eligibility = (e.Eligibility.1, e.Eligibility.2) ∧
    (∀ n : Nat, (fun x => (EvalContext.Eligibility x).2)^[n] e.Eligibility.2 = e.Eligibility.2) ∧
    (∀ calls : EvalEligibility Constraint → EvalEligibility Constraint,
      (e.Eligibility.2.onEligibility calls).Eligibility
        = (calls e.Eligibility.1, e.Eligibility.2.onEligibility calls)) ∧
    (∀ (esc : List Constraint → List Constraint) (ops : List (Op Constraint)) (tg : String)
      (c : Nat),
      JobStatus (e.Eligibility.2.onEligibility (runOps esc ops)).Eligibility.1 c
        = JobStatus (runOps esc ops e.Eligibility.1) c ∧
      TaskGroupStatus (e.Eligibility.2.onEligibility (runOps esc ops)).Eligibility.1 tg c
        = TaskGroupStatus (runOps esc ops e.Eligibility.1) tg c) := by
  have hstored : e.Eligibility.2.eligibility = some e.Eligibility.1 := by
    unfold EvalContext.Eligibility
    cases h : e.eligibility with
    | none => rfl
    | some t => simp [h]
  have hagain : e.Eligibility.2.Eligibility = (e.Eligibility.1, e.Eligibility.2) := by
    generalize e.Eligibility.2 = e1 at hstored ⊢
    generalize e.Eligibility.1 = t at hstored ⊢
    unfold EvalContext.Eligibility
    rw [hstored]
  have hcalls : ∀ calls : EvalEligibility Constraint → EvalEligibility Constraint,
      (e.Eligibility.2.onEligibility calls).Eligibility
        = (calls e.Eligibility.1, e.Eligibility.2.onEligibility calls) := by
    intro calls
    generalize e.Eligibility.2 = e1 at hstored ⊢
    generalize e.Eligibility.1 = t at hstored ⊢
    unfold EvalContext.onEligibility
    rw [hstored]
    rfl
  refine ⟨fun hnone => ?_, hstored, hagain, fun n => ?_, hcalls, fun esc ops tg c => ?_⟩
  · have hnew : e.Eligibility.1 = NewEvalEligibility := by
      unfold EvalContext.Eligibility
      rw [hnone]
    rw [hnew]
    refine ⟨rfl, fun c hc => ?_, fun tg c hc => ?_⟩
    · simp [JobStatus, NewEvalEligibility, mapEmpty, hc]
    · simp [TaskGroupStatus, NewEvalEligibility, mapEmpty, hc]
  · induction n with
    | zero => rfl
    | succ n ih =>
      rw [Function.iterate_succ_apply']
      rw [ih, hagain]
  · rw [hcalls]
    exact ⟨rfl, rfl⟩

theorem C12_Eligibility_lazy_shared_witness :
    TaskGroupStatus
      (exampleContext.Eligibility.2.onEligibility
        (runOps id [Op.setTaskGroupEligibility false "web" 3])).Eligibility.1 "web" 3
      = EvalComputedClassIneligible :=
  ((C12_Eligibility_lazy_shared exampleContext).2.2.2.2.2 id
    [Op.setTaskGroupEligibility false "web" 3] "web" 3).2.trans (by decide)

theorem RegexpCache_stored (c : EvalCache Regexp VersionConstraints) :
    c.RegexpCache.2.reCache = some c.RegexpCache.1 ∧
    c.RegexpCache.2.constraintCache = c.constraintCache := by
  unfold EvalCache.RegexpCache
  cases h : c.reCache with
  | none => exact ⟨rfl, rfl⟩
  | some m => simp [h]

theorem ConstraintCache_stored (c : EvalCache Regexp VersionConstraints) :
    c.ConstraintCache.2.constraintCache = some c.ConstraintCache.1 ∧
    c.ConstraintCache.2.reCache = c.reCache := by
  unfold EvalCache.ConstraintCache
  cases h : c.constraintCache with
  | none => exact ⟨rfl, rfl⟩
  | some m => simp [h]

theorem RegexpCache_of_some (c : EvalCache Regexp VersionConstraints)
    (m : String → Option Regexp) (h : c.reCache = some m) : c.RegexpCache = (m, c) := by
  unfold EvalCache.RegexpCache
  rw [h]

theorem ConstraintCache_of_some (c : EvalCache Regexp VersionConstraints)
    (m : String → Option VersionConstraints) (h : c.constraintCache = some m) :
    c.ConstraintCache = (m, c) := by
  unfold EvalCache.ConstraintCache
  rw [h]

theorem storeRegexp_of_some (c : EvalCache Regexp VersionConstraints)
    (m : String → Option Regexp) (h : c.reCache = some m) (key : String) (re : Regexp) :
    (c.storeRegexp key re).reCache = some (mapSet m key re) ∧
    (c.storeRegexp key re).constraintCache = c.constraintCache := by
  unfold EvalCache.storeRegexp
  rw [h]
  exact ⟨rfl, rfl⟩

theorem storeConstraint_of_some (c : EvalCache Regexp VersionConstraints)
    (m : String → Option VersionConstraints) (h : c.constraintCache = some m) (key : String)
    (v : VersionConstraints) :
    (c.storeConstraint key v).constraintCache = some (mapSet m key v) ∧
    (c.storeConstraint key v).reCache = c.reCache := by
  unfold EvalCache.storeConstraint
  rw [h]
  exact ⟨rfl, rfl⟩

theorem ConstraintCache_fst_congr (c c' : EvalCache Regexp VersionConstraints)
    (h : c.constraintCache = c'.constraintCache) :
    c.ConstraintCache.1 = c'.ConstraintCache.1 := by
  unfold EvalCache.ConstraintCache
  rw [h]
  cases c'.constraintCache <;> rfl

theorem RegexpCache_fst_congr (c c' : EvalCache Regexp VersionConstraints)
    (h : c.reCache = c'.reCache) : c.RegexpCache.1 = c'.RegexpCache.1 := by
  unfold EvalCache.RegexpCache
  rw [h]
  cases c'.reCache <;> rfl

/-- C13: `RegexpCache()` (and likewise `ConstraintCache()`) makes an empty map
on the first call and returns the map it stored on every later call; an entry a
caller stores under a source string in the returned map is found with the same
value under that string in the map the next call returns, the other entries
staying as they were; and neither cache affects the other. -/
theorem C13_caches_lazy_shared (c : EvalCache Regexp VersionConstraints) :
    (c.reCache = none → ∀ key, c.RegexpCache.1 key = none) ∧
    (c.constraintCache = none → ∀ key, c.ConstraintCache.1 key = none) ∧
    c.RegexpCache.2.RegexpCache = (c.RegexpCache.1, c.RegexpCache.2) ∧
    c.ConstraintCache.2.ConstraintCache = (c.ConstraintCache.1, c.ConstraintCache.2) ∧
    (∀ (key : String) (re : Regexp),
      (c.RegexpCache.2.storeRegexp key re).RegexpCache.1 key = some re ∧
      (∀ key', key' ≠ key →
        (c.RegexpCache.2.storeRegexp key re).RegexpCache.1 key' = c.RegexpCache.1 key') ∧
      (c.RegexpCache.2.storeRegexp key re).ConstraintCache.1 = c.ConstraintCache.1) ∧
    (∀ (key : String) (v : VersionConstraints),
      (c.ConstraintCache.2.storeConstraint key v).ConstraintCache.1 key = some v ∧
      (∀ key', key' ≠ key →
        (c.ConstraintCache.2.storeConstraint key v).ConstraintCache.1 key'
          = c.ConstraintCache.1 key') ∧
      (c.ConstraintCache.2.storeConstraint key v).RegexpCache.1 = c.RegexpCache.1) ∧
    c.RegexpCache.2.ConstraintCache.1 = c.ConstraintCache.1 ∧
    c.ConstraintCache.2.RegexpCache.1 = c.RegexpCache.1 := by
  obtain ⟨hre, hre'⟩ := RegexpCache_stored c
  obtain ⟨hco, hco'⟩ := ConstraintCache_stored c
  refine ⟨fun h key => ?_, fun h key => ?_, RegexpCache_of_some _ _ hre,
    ConstraintCache_of_some _ _ hco, fun key re => ⟨?_, fun key' hk => ?_, ?_⟩,
    fun key v => ⟨?_, fun key' hk => ?_, ?_⟩,
    ConstraintCache_fst_congr _ _ hre', RegexpCache_fst_congr _ _ hco'⟩
  · unfold EvalCache.RegexpCache; rw [h]; rfl
  · unfold EvalCache.ConstraintCache; rw [h]; rfl
  · rw [RegexpCache_of_some _ _ (storeRegexp_of_some _ _ hre key re).1]
    simp [mapSet]
  · rw [RegexpCache_of_some _ _ (storeRegexp_of_some _ _ hre key re).1]
    simp [mapSet, hk]
  · exact ConstraintCache_fst_congr _ _
      ((storeRegexp_of_some _ _ hre key re).2.trans hre')
  · rw [ConstraintCache_of_some _ _ (storeConstraint_of_some _ _ hco key v).1]
    simp [mapSet]
  · rw [ConstraintCache_of_some _ _ (storeConstraint_of_some _ _ hco key v).1]
    simp [mapSet, hk]
  · exact RegexpCache_fst_congr _ _
      ((storeConstraint_of_some _ _ hco key v).2.trans hco')

theorem C13_caches_lazy_shared_witness :
    (((⟨none, none⟩ : EvalCache String Nat).RegexpCache.2.storeRegexp "a.*"
        "compiled a.*").RegexpCache.1 "a.*" = some "compiled a.*") ∧
    (((⟨none, none⟩ : EvalCache String Nat).RegexpCache.2.storeRegexp "a.*"
        "compiled a.*").ConstraintCache.1
      = (⟨none, none⟩ : EvalCache String Nat).ConstraintCache.1) :=
  ⟨((C13_caches_lazy_shared (⟨none, none⟩ : EvalCache String Nat)).2.2.2.2.1 "a.*"
      "compiled a.*").1,
   ((C13_caches_lazy_shared (⟨none, none⟩ : EvalCache String Nat)).2.2.2.2.1 "a.*"
      "compiled a.*").2.2⟩

/-- Evictions that match nothing of what the filter kept, removed by a helper
that leaves a slice without a matching ID as it is, keep what no eviction keeps. -/
theorem keptAllocs_of_no_match (ID : Allocation → String)
    (F : Slice Allocation → Slice Allocation)
    (R : Slice Allocation → Slice Allocation → Slice Allocation)
    (hF : ∀ s a, a ∈ (F s).toList → a ∈ s.toList)
    (hR : ∀ s u, (∀ a ∈ s.toList, ID a ∉ u.toList.map ID) → (R s u).toList = s.toList)
    (p : Plan Allocation) (nodeID : String) (existing : Slice Allocation)
    (hno : ∀ a ∈ existing.toList, ID a ∉ (p.NodeUpdate nodeID).toList.map ID) :
    (keptAllocs F R p nodeID existing).toList = (F existing).toList := by
  unfold keptAllocs
  split_ifs with hu
  · exact hR _ _ (fun a ha => hno a (hF existing a ha))
  · rfl

theorem keptAllocs_of_no_update
    (F : Slice Allocation → Slice Allocation)
    (R : Slice Allocation → Slice Allocation → Slice Allocation)
    (p : Plan Allocation) (nodeID : String) (existing : Slice Allocation)
    (hu : (p.NodeUpdate nodeID).len = 0) :
    keptAllocs F R p nodeID existing = F existing := by
  unfold keptAllocs
  rw [if_neg (by omega)]

/-- C16: `ProposedAllocs` is lenient about the plan. With no (or an empty)
eviction entry and no placement entry for the node the result is exactly what
`FilterTerminalAllocs` keeps of the existing allocations, the non-terminal ones;
and when the evictions for the node name only IDs that no existing allocation of
the node has, the result is the one the same plan without any eviction gives,
with no error. `FilterTerminalAllocs` only drops allocations and `RemoveAllocs`
leaves a slice holding none of the named IDs as it is; the helpers modelled from
the spec are an instance. -/
theorem C16_ProposedAllocs_lenient (ID : Allocation → String)
    (TerminalStatus : Allocation → Bool)
    (F : Slice Allocation → Slice Allocation)
    (R : Slice Allocation → Slice Allocation → Slice Allocation)
    (e : EvalContext σ Allocation Err Constraint Regexp VersionConstraints AllocMetric Logger)
    (nodeID : String) (st st' : σ) (existing : Slice Allocation)
    (h : e.state.AllocsByNode nodeID st = ((existing, none), st')) :
    ((e.plan.NodeUpdate nodeID).len = 0 → (e.plan.NodeAllocation nodeID).len = 0 →
      e.ProposedAllocs F R nodeID st = ((Slice.mk (F existing).toList, none), st')) ∧
    ((e.plan.NodeUpdate nodeID).len = 0 → (e.plan.NodeAllocation nodeID).len = 0 →
      e.ProposedAllocs (FilterTerminalAllocs TerminalStatus) (RemoveAllocs ID) nodeID st
        = ((Slice.mk (existing.toList.filter (fun a => !TerminalStatus a)), none), st')) ∧
    ((∀ s a, a ∈ (F s).toList → a ∈ s.toList) →
     (∀ s u, (∀ a ∈ s.toList, ID a ∉ u.toList.map ID) → (R s u).toList = s.toList) →
     (∀ a ∈ existing.toList, ID a ∉ (e.plan.NodeUpdate nodeID).toList.map ID) →
      e.ProposedAllocs F R nodeID st =
        EvalContext.ProposedAllocs F R
          { e with plan := { e.plan with NodeUpdate := fun _ => Slice.nil } } nodeID st) ∧
    ((∀ a ∈ existing.toList, ID a ∉ (e.plan.NodeUpdate nodeID).toList.map ID) →
      e.ProposedAllocs (FilterTerminalAllocs TerminalStatus) (RemoveAllocs ID) nodeID st =
        EvalContext.ProposedAllocs (FilterTerminalAllocs TerminalStatus) (RemoveAllocs ID)
          { e with plan := { e.plan with NodeUpdate := fun _ => Slice.nil } } nodeID st) := by
  have h1 : ∀ (F' : Slice Allocation → Slice Allocation)
      (R' : Slice Allocation → Slice Allocation → Slice Allocation),
      (e.plan.NodeUpdate nodeID).len = 0 → (e.plan.NodeAllocation nodeID).len = 0 →
      e.ProposedAllocs F' R' nodeID st = ((Slice.mk (F' existing).toList, none), st') := by
    intro F' R' hu hp
    rw [ProposedAllocs_of_ok F' R' e nodeID st st' existing h,
      keptAllocs_of_no_update F' R' e.plan nodeID existing hu,
      Slice.toList_eq_nil_of_len _ hp, List.append_nil]
  have h3 : ∀ (F' : Slice Allocation → Slice Allocation)
      (R' : Slice Allocation → Slice Allocation → Slice Allocation),
      (∀ s a, a ∈ (F' s).toList → a ∈ s.toList) →
      (∀ s u, (∀ a ∈ s.toList, ID a ∉ u.toList.map ID) → (R' s u).toList = s.toList) →
      (∀ a ∈ existing.toList, ID a ∉ (e.plan.NodeUpdate nodeID).toList.map ID) →
      e.ProposedAllocs F' R' nodeID st =
        EvalContext.ProposedAllocs F' R'
          { e with plan := { e.plan with NodeUpdate := fun _ => Slice.nil } } nodeID st := by
    intro F' R' hF hR hno
    have h' : EvalContext.ProposedAllocs F' R'
          { e with plan := { e.plan with NodeUpdate := fun _ => Slice.nil } } nodeID st
        = ((Slice.mk ((F' existing).toList ++ (e.plan.NodeAllocation nodeID).toList),
            none), st') := by
      rw [ProposedAllocs_of_ok F' R'
          { e with plan := { e.plan with NodeUpdate := fun _ => Slice.nil } }
          nodeID st st' existing h,
        keptAllocs_of_no_update F' R' { e.plan with NodeUpdate := fun _ => Slice.nil }
          nodeID existing rfl]
    rw [h',ProposedAllocs_of_ok F' R' e nodeID st st' existing h,
      keptAllocs_of_no_match ID F' R' hF hR e.plan nodeID existing hno]
  refine ⟨h1 F R, fun hu hp => ?_, h3 F R, ?_⟩
  · rw [h1 _ _ hu hp, FilterTerminalAllocs_toList]
  · apply h3
    · intro s a ha
      rw [FilterTerminalAllocs_toList] at ha
      exact List.mem_of_mem_filter ha
    · intro s u hno
      rw [RemoveAllocs_toList, List.filter_eq_self]
      intro a ha
      simpa using hno a ha

theorem C16_ProposedAllocs_lenient_witness :
    EvalContext.ProposedAllocs (FilterTerminalAllocs Prod.snd) (RemoveAllocs Prod.fst)
        ({ exampleContext with plan := exampleStalePlan }) "n1" 0
      = ((Slice.mk [("A", false), ("B", false)], none), 1) :=
  ((C16_ProposedAllocs_lenient Prod.fst Prod.snd (FilterTerminalAllocs Prod.snd)
      (RemoveAllocs Prod.fst) ({ exampleContext with plan := exampleStalePlan }) "n1" 0 1
      (Slice.mk [("A", false), ("B", false), ("C", true)]) rfl).2.2.2
    (by decide)).trans (by decide)

end ContextFrameClaims

end Scheduler
